import Mathlib

/-!
Verification development for the utpatur-api repository.

The repository is a FastAPI backend over a Neo4j graph of `Hut` nodes and
directed `LINK` edges, plus itinerary persistence and a batch enrichment job.
Below we give a shallow embedding of the data model and of the operations the
claims are about, translated from the Python/Cypher source, and prove the
claimed properties.  Python floats are modelled as rationals.
-/

namespace Utpatur

attribute [local semireducible] Rat.add Rat.mul Rat.sub Rat.inv

/-- A Neo4j `Hut` node.  `nid` is the internal node identity (Neo4j node id);
`hut_id` is the application-level key.  Optional properties are `Option`. -/
structure HutNode where
  nid : Nat
  hut_id : Int
  name : String
  latitude : Option ℚ := none
  longitude : Option ℚ := none
  country_code : Option String := none
deriving Repr, DecidableEq

/-- A Neo4j `LINK` relationship between two nodes, referenced by node identity.
`rid` is the relationship identity. -/
structure LinkRel where
  rid : Nat
  src : Nat
  dst : Nat
  distance_km : Option ℚ := none
  dplus_m : Option ℚ := none
  dminus_m : Option ℚ := none
  geometry_polyline : Option String := none
  ors_skip : Option Bool := none
  ors_reason : Option String := none
deriving Repr, DecidableEq

/-- The property graph: `Hut` nodes and `LINK` relationships. -/
structure Graph where
  nodes : List HutNode
  rels : List LinkRel
deriving Repr, DecidableEq

/-- Resolve a node identity to its node record. -/
def findNode (g : Graph) (nid : Nat) : Option HutNode :=
  g.nodes.find? (fun n => n.nid == nid)

/-- Cypher `coalesce(r.distance_km, 0.0)`. -/
def relDist (r : LinkRel) : ℚ := r.distance_km.getD 0

/-- Cypher `coalesce(toFloat(r.dplus_m), 0.0)`. -/
def relDplus (r : LinkRel) : ℚ := r.dplus_m.getD 0

/-- Cypher `coalesce(toFloat(r.dminus_m), 0.0)`. -/
def relDminus (r : LinkRel) : ℚ := r.dminus_m.getD 0

/-- Cypher `reduce(d = 0.0, r IN rels | d + coalesce(r.distance_km, 0.0))`. -/
def pathDist (p : List LinkRel) : ℚ := p.foldl (fun d r => d + relDist r) 0

/-- Cumulative ascent over a path. -/
def pathDplus (p : List LinkRel) : ℚ := p.foldl (fun d r => d + relDplus r) 0

/-- Cumulative descent over a path. -/
def pathDminus (p : List LinkRel) : ℚ := p.foldl (fun d r => d + relDminus r) 0

/-- Enumeration of the Cypher variable-length pattern
`(cur)-[rels:LINK*1..k]->()`: all relationship lists of length `1..k` that
chain forward from node `cur`, use only relationships of the graph, and
never repeat a relationship (Cypher relationship-uniqueness), nor one of the
already `used` relationship ids. -/
def pathsFrom (g : Graph) (cur : Nat) (used : List Nat) : Nat → List (List LinkRel)
  | 0 => []
  | k + 1 =>
    (g.rels.filter (fun r => r.src == cur && !(used.contains r.rid))).flatMap
      (fun r => [r] :: (pathsFrom g r.dst (r.rid :: used) k).map (fun p => r :: p))

/-- One row of the reachable-huts Cypher query, before/after best-of selection. -/
structure PathRow where
  dest : HutNode
  total_distance_km : ℚ
  total_dplus_m : ℚ
  total_dminus_m : ℚ
  segments : Nat
  via : Option String
  rels : List LinkRel
deriving Repr, DecidableEq

/-- Cypher `CASE WHEN segments = 2 THEN nodes(p)[1].name ELSE null END`:
the name of the second node of the path (the single intermediate hut)
when the path has exactly two relationships. -/
def pathVia (g : Graph) (p : List LinkRel) : Option String :=
  if p.length = 2 then
    (p.head?.bind (fun r => findNode g r.dst)).map (fun n => n.name)
  else none

/-- Turn a matched path into a query row (the destination node is the end
node of the last relationship). -/
def rowOfPath (g : Graph) (p : List LinkRel) : Option PathRow :=
  (p.getLast?.bind (fun r => findNode g r.dst)).map (fun d =>
    { dest := d
      total_distance_km := pathDist p
      total_dplus_m := pathDplus p
      total_dminus_m := pathDminus p
      segments := p.length
      via := pathVia g p
      rels := p })

/-- Rows for all qualifying paths: paths of 1..5 `LINK` relationships from a
start node, ending at a node distinct from the start, with at most
`maxSeg` relationships and cumulative distance at most `maxDist`.  The start
node is bound by `MATCH (start:Hut {hut_id: $start_id})`. -/
def qualRows (g : Graph) (startId : Int) (maxDist : ℚ) (maxSeg : Nat) : List PathRow :=
  (g.nodes.filter (fun n => n.hut_id == startId)).flatMap (fun s =>
    ((pathsFrom g s.nid [] 5).filterMap (rowOfPath g)).filter
      (fun row => row.dest.nid != s.nid && row.segments ≤ maxSeg
        && decide (row.total_distance_km ≤ maxDist)))

/-- Ordering used in `src/huts_router.py` before the best-of selection:
`ORDER BY total_distance_km ASC, segments ASC`. -/
def rowLeDistSeg (a b : PathRow) : Prop :=
  a.total_distance_km < b.total_distance_km ∨
    (a.total_distance_km = b.total_distance_km ∧ a.segments ≤ b.segments)

/-- Ordering used in `src/routers/huts.py` before the best-of selection:
`ORDER BY total_distance_km ASC`. -/
def rowLeDist (a b : PathRow) : Prop :=
  a.total_distance_km ≤ b.total_distance_km

/-- Final ordering of both variants: `ORDER BY total_distance_km ASC, name ASC`. -/
def rowLeDistName (a b : PathRow) : Prop :=
  a.total_distance_km < b.total_distance_km ∨
    (a.total_distance_km = b.total_distance_km ∧ a.dest.name ≤ b.dest.name)

instance : DecidableRel rowLeDistSeg := fun a b => by
  unfold rowLeDistSeg; infer_instance

instance : DecidableRel rowLeDist := fun a b => by
  unfold rowLeDist; infer_instance

instance : DecidableRel rowLeDistName := fun a b => by
  unfold rowLeDistName; infer_instance

instance : IsTotal PathRow rowLeDistSeg where
  total a b := by
    unfold rowLeDistSeg
    rcases lt_trichotomy a.total_distance_km b.total_distance_km with h | h | h
    · exact Or.inl (Or.inl h)
    · rcases Nat.le_total a.segments b.segments with hs | hs
      · exact Or.inl (Or.inr ⟨h, hs⟩)
      · exact Or.inr (Or.inr ⟨h.symm, hs⟩)
    · exact Or.inr (Or.inl h)

instance : IsTrans PathRow rowLeDistSeg where
  trans a b c hab hbc := by
    unfold rowLeDistSeg at *
    rcases hab with h1 | ⟨h1, h1s⟩
    · rcases hbc with h2 | ⟨h2, _⟩
      · exact Or.inl (h1.trans h2)
      · exact Or.inl (h2 ▸ h1)
    · rcases hbc with h2 | ⟨h2, h2s⟩
      · exact Or.inl (h1 ▸ h2)
      · exact Or.inr ⟨h1.trans h2, h1s.trans h2s⟩

instance : IsTotal PathRow rowLeDist where
  total a b := le_total _ _

instance : IsTrans PathRow rowLeDist where
  trans _ _ _ hab hbc := le_trans hab hbc

instance : IsTotal PathRow rowLeDistName where
  total a b := by
    unfold rowLeDistName
    rcases lt_trichotomy a.total_distance_km b.total_distance_km with h | h | h
    · exact Or.inl (Or.inl h)
    · rcases le_total a.dest.name b.dest.name with hs | hs
      · exact Or.inl (Or.inr ⟨h, hs⟩)
      · exact Or.inr (Or.inr ⟨h.symm, hs⟩)
    · exact Or.inr (Or.inl h)

instance : IsTrans PathRow rowLeDistName where
  trans a b c hab hbc := by
    unfold rowLeDistName at *
    rcases hab with h1 | ⟨h1, h1s⟩
    · rcases hbc with h2 | ⟨h2, _⟩
      · exact Or.inl (h1.trans h2)
      · exact Or.inl (h2 ▸ h1)
    · rcases hbc with h2 | ⟨h2, h2s⟩
      · exact Or.inl (h1 ▸ h2)
      · exact Or.inr ⟨h1.trans h2, h1s.trans h2s⟩

/-- Auxiliary for `firstPerDest`: drop every row whose destination node was
already seen. -/
def firstPerDestAux (seen : List Nat) : List PathRow → List PathRow
  | [] => []
  | r :: rs =>
    if r.dest.nid ∈ seen then firstPerDestAux seen rs
    else r :: firstPerDestAux (r.dest.nid :: seen) rs

/-- Cypher `WITH dest, head(collect(...))` after an `ORDER BY`: group rows by
the destination node and keep, for each destination, the first row in the
incoming order. -/
def firstPerDest (l : List PathRow) : List PathRow :=
  firstPerDestAux [] l

/-- The reachable-huts query of `src/huts_router.py` (`get_reachable_huts`):
returns the empty list when `max_distance_km <= 0`, otherwise enumerates all
qualifying paths, orders them by `(total_distance_km, segments)`, keeps the
head row per destination, and orders the result by `(total_distance_km, name)`. -/
def get_reachable_huts (g : Graph) (startId : Int) (maxDist : ℚ) (maxSeg : Nat) :
    List PathRow :=
  if maxDist ≤ 0 then []
  else
    List.insertionSort rowLeDistName
      (firstPerDest (List.insertionSort rowLeDistSeg (qualRows g startId maxDist maxSeg)))

/-- The reachable-huts query of `src/routers/huts.py` (`get_reachable_huts`):
same pipeline, but the pre-selection ordering is by `total_distance_km` only
and the final result is capped by `LIMIT 1000`. -/
def get_reachable_huts_capped (g : Graph) (startId : Int) (maxDist : ℚ) (maxSeg : Nat) :
    List PathRow :=
  (List.insertionSort rowLeDistName
    (firstPerDest (List.insertionSort rowLeDist (qualRows g startId maxDist maxSeg)))).take 1000

/-! ### Characterisation of the enumerated paths -/

/-- The relationship list `p` chains forward from node `cur`. -/
def ChainFrom : Nat → List LinkRel → Prop
  | _, [] => True
  | cur, r :: rs => r.src = cur ∧ ChainFrom r.dst rs

instance instDecChainFrom : (cur : Nat) → (p : List LinkRel) → Decidable (ChainFrom cur p)
  | _, [] => .isTrue trivial
  | cur, r :: rs =>
    haveI := instDecChainFrom r.dst rs
    inferInstanceAs (Decidable (r.src = cur ∧ ChainFrom r.dst rs))

/-- Node identity of the destination of a path (end node of its last edge). -/
def pathDestNid (p : List LinkRel) : Option Nat := p.getLast?.map (fun r => r.dst)

/-- A qualifying path for the reachable-huts query: a nonempty chain of at
most five relationships of the graph starting at the start node, using no
relationship twice, with at most `maxSeg` relationships, cumulative distance
at most `maxDist`, and a destination distinct from the start node. -/
def IsQualPath (g : Graph) (s : HutNode) (maxDist : ℚ) (maxSeg : Nat)
    (p : List LinkRel) : Prop :=
  p ≠ [] ∧ p.length ≤ 5 ∧ ChainFrom s.nid p ∧ (∀ r ∈ p, r ∈ g.rels) ∧
    (p.map (fun r => r.rid)).Nodup ∧ p.length ≤ maxSeg ∧ pathDist p ≤ maxDist ∧
    pathDestNid p ≠ some s.nid

instance (g : Graph) (s : HutNode) (maxDist : ℚ) (maxSeg : Nat) (p : List LinkRel) :
    Decidable (IsQualPath g s maxDist maxSeg p) := by
  unfold IsQualPath; infer_instance

/-- Boolean membership check versus propositional membership. -/
theorem contains_false_iff {l : List Nat} {a : Nat} : l.contains a = false ↔ a ∉ l := by
  rw [← Bool.not_eq_true, not_iff_not]
  exact List.elem_iff

/-- Completeness and soundness of the path enumeration `pathsFrom`. -/
theorem mem_pathsFrom {g : Graph} {k : Nat} :
    ∀ {cur : Nat} {used : List Nat} {p : List LinkRel},
      p ∈ pathsFrom g cur used k ↔
        p ≠ [] ∧ p.length ≤ k ∧ ChainFrom cur p ∧ (∀ r ∈ p, r ∈ g.rels) ∧
          (p.map (fun r => r.rid)).Nodup ∧ ∀ r ∈ p, r.rid ∉ used := by
  induction k with
  | zero =>
    intro cur used p
    simp only [pathsFrom, List.not_mem_nil, false_iff]
    rintro ⟨hne, hlen, -⟩
    exact hne (List.eq_nil_of_length_eq_zero (Nat.le_zero.mp hlen))
  | succ k ih =>
    intro cur used p
    constructor
    · intro hp
      simp only [pathsFrom, List.mem_flatMap, List.mem_filter, List.mem_cons,
        List.mem_map, Bool.and_eq_true, beq_iff_eq, Bool.not_eq_true',
        contains_false_iff] at hp
      obtain ⟨r, ⟨hrmem, hrsrc, hrused⟩, hcase⟩ := hp
      rcases hcase with hp1 | ⟨q, hq, hpq⟩
      · subst hp1
        refine ⟨by simp, by simp, ⟨hrsrc, trivial⟩, ?_, by simp, ?_⟩
        · intro x hx; simp at hx; simpa [hx] using hrmem
        · intro x hx; simp at hx; simpa [hx] using hrused
      · subst hpq
        obtain ⟨hqne, hqlen, hqchain, hqmem, hqnodup, hqused⟩ := ih.mp hq
        refine ⟨by simp, by simpa using Nat.succ_le_succ hqlen, ⟨hrsrc, hqchain⟩, ?_, ?_, ?_⟩
        · intro x hx
          rcases List.mem_cons.mp hx with h | h
          · simpa [h] using hrmem
          · exact hqmem x h
        · rw [List.map_cons, List.nodup_cons]
          refine ⟨?_, hqnodup⟩
          intro hmem
          obtain ⟨x, hxq, hxr⟩ := List.mem_map.mp hmem
          exact (hqused x hxq) (by simp [hxr])
        · intro x hx
          rcases List.mem_cons.mp hx with h | h
          · simpa [h] using hrused
          · intro hxused
            exact (hqused x h) (List.mem_cons_of_mem _ hxused)
    · rintro ⟨hne, hlen, hchain, hmem, hnodup, hused⟩
      obtain ⟨r, q, rfl⟩ : ∃ r q, p = r :: q := by
        cases p with
        | nil => exact absurd rfl hne
        | cons a l => exact ⟨a, l, rfl⟩
      obtain ⟨hrsrc, hqchain⟩ := hchain
      rw [List.map_cons, List.nodup_cons] at hnodup
      simp only [pathsFrom, List.mem_flatMap, List.mem_filter, List.mem_cons,
        List.mem_map, Bool.and_eq_true, beq_iff_eq, Bool.not_eq_true',
        contains_false_iff]
      refine ⟨r, ⟨hmem r (by simp), hrsrc, hused r (by simp)⟩, ?_⟩
      cases q with
      | nil => exact Or.inl rfl
      | cons b l =>
        refine Or.inr ⟨b :: l, ih.mpr ⟨by simp, by simpa using hlen, hqchain, ?_, hnodup.2, ?_⟩, rfl⟩
        · intro x hx; exact hmem x (List.mem_cons_of_mem _ hx)
        · intro x hx
          have hx1 : x.rid ∉ used := hused x (List.mem_cons_of_mem _ hx)
          have hx2 : x.rid ≠ r.rid := by
            intro hcontra
            exact hnodup.1 (List.mem_map.mpr ⟨x, hx, by simp [hcontra]⟩)
          simp [hx1, hx2]

/-- Fields of a row produced from a path. -/
theorem rowOfPath_eq_some {g : Graph} {p : List LinkRel} {row : PathRow}
    (h : rowOfPath g p = some row) :
    row.total_distance_km = pathDist p ∧ row.total_dplus_m = pathDplus p ∧
      row.total_dminus_m = pathDminus p ∧ row.segments = p.length ∧
      row.via = pathVia g p ∧ row.rels = p ∧
      ∃ rl, p.getLast? = some rl ∧ findNode g rl.dst = some row.dest := by
  unfold rowOfPath at h
  cases hlast : p.getLast? with
  | none => rw [hlast] at h; simp at h
  | some rl =>
    rw [hlast, Option.some_bind] at h
    cases hfind : findNode g rl.dst with
    | none => rw [hfind] at h; simp at h
    | some d =>
      rw [hfind] at h
      simp only [Option.map_some', Option.some_inj] at h
      subst h
      exact ⟨rfl, rfl, rfl, rfl, rfl, rfl, rl, rfl, by rw [hfind]⟩

/-- The node returned by `findNode` has the requested node identity. -/
theorem findNode_nid {g : Graph} {nid : Nat} {n : HutNode}
    (h : findNode g nid = some n) : n.nid = nid ∧ n ∈ g.nodes := by
  have h1 := List.find?_some h
  have h2 := List.mem_of_find?_eq_some h
  exact ⟨by simpa using h1, h2⟩

/-- The destination node identity of a produced row is the path destination. -/
theorem rowOfPath_dest_nid {g : Graph} {p : List LinkRel} {row : PathRow}
    (h : rowOfPath g p = some row) : pathDestNid p = some row.dest.nid := by
  obtain ⟨-, -, -, -, -, -, rl, hlast, hfind⟩ := rowOfPath_eq_some h
  unfold pathDestNid
  rw [hlast, Option.map_some']
  exact congrArg some ((findNode_nid hfind).1).symm

/-- Membership in the qualifying rows, in terms of qualifying paths, assuming
`s` is the unique node whose `hut_id` is the requested start id. -/
theorem mem_qualRows {g : Graph} {startId : Int} {maxDist : ℚ} {maxSeg : Nat}
    {row : PathRow} {s : HutNode}
    (hs : g.nodes.filter (fun n => n.hut_id == startId) = [s]) :
    row ∈ qualRows g startId maxDist maxSeg ↔
      ∃ p, IsQualPath g s maxDist maxSeg p ∧ rowOfPath g p = some row := by
  unfold qualRows
  rw [hs]
  simp only [List.flatMap_cons, List.flatMap_nil, List.append_nil, List.mem_filter,
    List.mem_filterMap, Bool.and_eq_true, bne_iff_ne, decide_eq_true_eq]
  constructor
  · rintro ⟨⟨p, hp, hrow⟩, ⟨hne, hseg⟩, hdist⟩
    obtain ⟨hpne, hplen, hchain, hmem, hnodup, -⟩ := mem_pathsFrom.mp hp
    obtain ⟨hd, -, -, hsegs, -, -, rl, hlast, -⟩ := rowOfPath_eq_some hrow
    refine ⟨p, ⟨hpne, hplen, hchain, hmem, hnodup, ?_, ?_, ?_⟩, hrow⟩
    · rw [← hsegs]; exact hseg
    · rw [← hd]; exact hdist
    · rw [rowOfPath_dest_nid hrow]
      intro hcontra
      exact hne (Option.some_inj.mp hcontra)
  · rintro ⟨p, ⟨hpne, hplen, hchain, hmem, hnodup, hseg, hdist, hdest⟩, hrow⟩
    obtain ⟨hd, -, -, hsegs, -, -, rl, hlast, -⟩ := rowOfPath_eq_some hrow
    refine ⟨⟨p, mem_pathsFrom.mpr ⟨hpne, hplen, hchain, hmem, hnodup, by simp⟩, hrow⟩,
      ⟨?_, ?_⟩, ?_⟩
    · intro hcontra
      exact hdest (by rw [rowOfPath_dest_nid hrow, hcontra])
    · rw [hsegs]; exact hseg
    · rw [hd]; exact hdist

/-! ### Lemmas about the best-of selection -/

theorem mem_of_mem_firstPerDestAux {seen : List Nat} {l : List PathRow} {row : PathRow}
    (h : row ∈ firstPerDestAux seen l) : row ∈ l := by
  induction l generalizing seen with
  | nil => simpa [firstPerDestAux] using h
  | cons a as ih =>
    by_cases hmem : a.dest.nid ∈ seen
    · rw [firstPerDestAux, if_pos hmem] at h
      exact List.mem_cons_of_mem _ (ih h)
    · rw [firstPerDestAux, if_neg hmem] at h
      rcases List.mem_cons.mp h with h | h
      · exact h ▸ List.mem_cons_self _ _
      · exact List.mem_cons_of_mem _ (ih h)

theorem nid_notin_seen_of_mem_firstPerDestAux {seen : List Nat} {l : List PathRow}
    {row : PathRow} (h : row ∈ firstPerDestAux seen l) : row.dest.nid ∉ seen := by
  induction l generalizing seen with
  | nil => simp [firstPerDestAux] at h
  | cons a as ih =>
    by_cases hmem : a.dest.nid ∈ seen
    · rw [firstPerDestAux, if_pos hmem] at h
      exact ih h
    · rw [firstPerDestAux, if_neg hmem] at h
      rcases List.mem_cons.mp h with h | h
      · exact h ▸ hmem
      · intro hcontra
        exact ih h (List.mem_cons_of_mem _ hcontra)

theorem exists_mem_firstPerDestAux {seen : List Nat} {l : List PathRow} {k : Nat}
    (hk : k ∉ seen) (h : ∃ row ∈ l, row.dest.nid = k) :
    ∃ row ∈ firstPerDestAux seen l, row.dest.nid = k := by
  induction l generalizing seen with
  | nil => simpa using h
  | cons a as ih =>
    obtain ⟨row, hrow, hknid⟩ := h
    by_cases hmem : a.dest.nid ∈ seen
    · rw [firstPerDestAux, if_pos hmem]
      rcases List.mem_cons.mp hrow with h | h
      · exact absurd (hknid ▸ h ▸ hmem) hk
      · exact ih hk ⟨row, h, hknid⟩
    · rw [firstPerDestAux, if_neg hmem]
      by_cases hak : a.dest.nid = k
      · exact ⟨a, List.mem_cons_self _ _, hak⟩
      · rcases List.mem_cons.mp hrow with h | h
        · exact absurd (h ▸ hknid) hak
        · obtain ⟨row2, hrow2, hk2⟩ := ih (by
            intro hcontra
            rcases List.mem_cons.mp hcontra with hc | hc
            · exact hak hc.symm
            · exact hk hc) ⟨row, h, hknid⟩
          exact ⟨row2, List.mem_cons_of_mem _ hrow2, hk2⟩

theorem pairwise_ne_firstPerDestAux (seen : List Nat) (l : List PathRow) :
    (firstPerDestAux seen l).Pairwise (fun a b => a.dest.nid ≠ b.dest.nid) := by
  induction l generalizing seen with
  | nil => simp [firstPerDestAux]
  | cons a as ih =>
    by_cases hmem : a.dest.nid ∈ seen
    · rw [firstPerDestAux, if_pos hmem]; exact ih seen
    · rw [firstPerDestAux, if_neg hmem]
      refine List.pairwise_cons.mpr ⟨?_, ih _⟩
      intro b hb hcontra
      exact nid_notin_seen_of_mem_firstPerDestAux hb (by simp [← hcontra])

/-- In a list sorted with respect to `r`, the row kept for each destination is
below every other row with the same destination. -/
theorem min_of_mem_firstPerDestAux {r : PathRow → PathRow → Prop} {seen : List Nat}
    {l : List PathRow} (hl : l.Pairwise r) :
    ∀ row ∈ firstPerDestAux seen l, ∀ q ∈ l, q.dest.nid = row.dest.nid →
      row = q ∨ r row q := by
  induction l generalizing seen with
  | nil => simp
  | cons a as ih =>
    intro row hrow q hq hkey
    obtain ⟨hhead, htail⟩ := List.pairwise_cons.mp hl
    by_cases hmem : a.dest.nid ∈ seen
    · rw [firstPerDestAux, if_pos hmem] at hrow
      rcases List.mem_cons.mp hq with hq1 | hq1
      · exfalso
        exact nid_notin_seen_of_mem_firstPerDestAux hrow (hkey ▸ hq1 ▸ hmem)
      · exact ih htail row hrow q hq1 hkey
    · rw [firstPerDestAux, if_neg hmem] at hrow
      rcases List.mem_cons.mp hrow with hrow1 | hrow1
      · subst hrow1
        rcases List.mem_cons.mp hq with hq1 | hq1
        · exact Or.inl hq1.symm
        · exact Or.inr (hhead q hq1)
      · have hrowne : row.dest.nid ≠ a.dest.nid := by
          intro hcontra
          exact nid_notin_seen_of_mem_firstPerDestAux hrow1 (by simp [hcontra])
        rcases List.mem_cons.mp hq with hq1 | hq1
        · exact absurd (hq1 ▸ hkey) (fun hqq => hrowne hqq.symm)
        · exact ih htail row hrow1 q hq1 hkey

/-- A list whose rows have pairwise distinct destinations holds at most one
row per destination. -/
theorem countP_key_le_one {l : List PathRow}
    (h : l.Pairwise (fun a b => a.dest.nid ≠ b.dest.nid)) (k : Nat) :
    l.countP (fun row => row.dest.nid == k) ≤ 1 := by
  induction l with
  | nil => simp
  | cons a as ih =>
    obtain ⟨hhead, htail⟩ := List.pairwise_cons.mp h
    rw [List.countP_cons]
    by_cases hak : a.dest.nid = k
    · have hzero : as.countP (fun row => row.dest.nid == k) = 0 := by
        rw [List.countP_eq_zero]
        intro q hq
        simpa using fun hcontra => hhead q hq (by rw [hak, hcontra])
      simp [hzero, hak]
    · simpa [hak] using ih htail

/-- Build the row of a qualifying path whose destination resolves via `findNode`. -/
theorem rowOfPath_of_dest {g : Graph} {p : List LinkRel} {dnid : Nat} {d : HutNode}
    (hpd : pathDestNid p = some dnid) (hd : findNode g dnid = some d) :
    rowOfPath g p = some
      { dest := d
        total_distance_km := pathDist p
        total_dplus_m := pathDplus p
        total_dminus_m := pathDminus p
        segments := p.length
        via := pathVia g p
        rels := p } := by
  obtain ⟨rl, hlast, hdst⟩ : ∃ rl, p.getLast? = some rl ∧ rl.dst = dnid := by
    unfold pathDestNid at hpd
    cases hl : p.getLast? with
    | none => rw [hl] at hpd; simp at hpd
    | some rl =>
      rw [hl, Option.map_some'] at hpd
      exact ⟨rl, rfl, Option.some_inj.mp hpd⟩
  unfold rowOfPath
  rw [hlast, Option.some_bind, hdst, hd, Option.map_some']

/-- Relationship destinations resolve to nodes of the graph (every Neo4j
relationship endpoint is a node of the graph). -/
def DestsResolve (g : Graph) : Prop :=
  ∀ r ∈ g.rels, ∃ n ∈ g.nodes, n.nid = r.dst

instance (g : Graph) : Decidable (DestsResolve g) := by
  unfold DestsResolve; infer_instance

theorem findNode_of_destsResolve {g : Graph} (hg : DestsResolve g) {r : LinkRel}
    (hr : r ∈ g.rels) : ∃ m, findNode g r.dst = some m := by
  obtain ⟨n, hn, hnid⟩ := hg r hr
  have : (g.nodes.find? (fun x => x.nid == r.dst)).isSome = true :=
    List.find?_isSome.mpr ⟨n, hn, by simp [hnid]⟩
  exact Option.isSome_iff_exists.mp this

/-- C1: for every start hut and every LINK graph, the reachable-huts operation
returns, for each destination hut (distinct from the start node) reachable by a
qualifying path of 1 to `max_segments` LINK edges with cumulative distance at
most `max_distance_km`, exactly one record; that record is produced from a
qualifying path, its total distance is minimal over all qualifying paths to
that destination, ties are broken by the path with fewer segments, and its
`via` field is the name of the single intermediate hut exactly when the
selected path has 2 segments and is null for every other path length.
Verified against `get_reachable_huts` of `src/huts_router.py`, whose ordering
before the best-of selection is by distance then segment count. -/
theorem get_reachable_huts_best_path (g : Graph) (startId : Int) (maxDist : ℚ)
    (maxSeg : Nat) (s d : HutNode) (dnid : Nat)
    (hs : g.nodes.filter (fun n => n.hut_id == startId) = [s])
    (hdist : 1 ≤ maxDist) (hseg5 : maxSeg ≤ 5)
    (hd : findNode g dnid = some d)
    (hres : DestsResolve g)
    (hreach : ∃ p, IsQualPath g s maxDist maxSeg p ∧ pathDestNid p = some dnid) :
    (get_reachable_huts g startId maxDist maxSeg).countP
        (fun row => row.dest.nid == dnid) = 1 ∧
      ∃ row ∈ get_reachable_huts g startId maxDist maxSeg,
        row.dest = d ∧
        (∃ p, IsQualPath g s maxDist maxSeg p ∧ pathDestNid p = some dnid ∧
          rowOfPath g p = some row) ∧
        (∀ p, IsQualPath g s maxDist maxSeg p → pathDestNid p = some dnid →
          row.total_distance_km ≤ pathDist p ∧
            (pathDist p = row.total_distance_km → row.segments ≤ p.length)) ∧
        (row.segments = 2 → ∃ r0 m, row.rels.head? = some r0 ∧
          findNode g r0.dst = some m ∧ row.via = some m.name) ∧
        (row.segments ≠ 2 → row.via = none) := by
  have hnot : ¬ maxDist ≤ 0 := by intro h; linarith
  have hdnid : d.nid = dnid := (findNode_nid hd).1
  set qual := qualRows g startId maxDist maxSeg with hqual
  set L1 := List.insertionSort rowLeDistSeg qual with hL1
  have hresdef : get_reachable_huts g startId maxDist maxSeg =
      List.insertionSort rowLeDistName (firstPerDestAux [] L1) := by
    rw [get_reachable_huts, if_neg hnot]; rfl
  have hL1perm : L1.Perm qual := List.perm_insertionSort _ _
  have hL1sorted : L1.Pairwise rowLeDistSeg := List.sorted_insertionSort _ _
  have hperm2 : (List.insertionSort rowLeDistName (firstPerDestAux [] L1)).Perm
      (firstPerDestAux [] L1) := List.perm_insertionSort _ _
  -- a row for the reachable destination exists among the qualifying rows
  obtain ⟨p0, hp0, hp0dest⟩ := hreach
  have hrow0 := rowOfPath_of_dest hp0dest hd
  have hrow0qual : _ ∈ qual := (mem_qualRows hs).mpr ⟨p0, hp0, hrow0⟩
  have hrow0key : (⟨d, pathDist p0, pathDplus p0, pathDminus p0, p0.length,
      pathVia g p0, p0⟩ : PathRow).dest.nid = dnid := hdnid
  -- coverage of the destination in the selected rows
  obtain ⟨row, hrowB, hrowkey⟩ :=
    exists_mem_firstPerDestAux (List.not_mem_nil _)
      ⟨_, hL1perm.mem_iff.mpr hrow0qual, hrow0key⟩
  have hrowres : row ∈ get_reachable_huts g startId maxDist maxSeg := by
    rw [hresdef]
    exact hperm2.mem_iff.mpr hrowB
  -- the attained qualifying path of the selected row
  have hrowqual : row ∈ qual := hL1perm.mem_iff.mp (mem_of_mem_firstPerDestAux hrowB)
  obtain ⟨pr, hpr, hprrow⟩ := (mem_qualRows hs).mp hrowqual
  have hprdest : pathDestNid pr = some dnid := by
    rw [rowOfPath_dest_nid hprrow, hrowkey]
  obtain ⟨hprd, -, -, hprsegs, hprvia, hprrels, rlr, hrlast, hrfind⟩ := rowOfPath_eq_some hprrow
  constructor
  · -- exactly one returned record for the destination
    rw [hresdef, List.Perm.countP_eq _ hperm2]
    have hle := countP_key_le_one (pairwise_ne_firstPerDestAux [] L1) dnid
    have hpos : 0 < (firstPerDestAux [] L1).countP (fun r => r.dest.nid == dnid) :=
      List.countP_pos.mpr ⟨row, hrowB, by simp [hrowkey]⟩
    omega
  · refine ⟨row, hrowres, ?_, ⟨pr, hpr, hprdest, hprrow⟩, ?_, ?_, ?_⟩
    · -- the destination record resolves to the node found under dnid
      have : rlr.dst = dnid := by
        unfold pathDestNid at hprdest
        rw [hrlast, Option.map_some'] at hprdest
        exact Option.some_inj.mp hprdest
      rw [this] at hrfind
      exact Option.some_inj.mp (hrfind.symm.trans hd)
    · -- minimality with ties broken by fewer segments
      intro p hp hpdest
      have hrowp := rowOfPath_of_dest hpdest hd
      have hrowpqual : _ ∈ qual := (mem_qualRows hs).mpr ⟨p, hp, hrowp⟩
      have hkeys : (⟨d, pathDist p, pathDplus p, pathDminus p, p.length,
          pathVia g p, p⟩ : PathRow).dest.nid = row.dest.nid := by
        rw [hrowkey]; exact hdnid
      have hmin := min_of_mem_firstPerDestAux hL1sorted row hrowB _
        (hL1perm.mem_iff.mpr hrowpqual) hkeys
      rcases hmin with heq | hle
      · have h1 : row.total_distance_km = pathDist p := by rw [heq]
        have h2 : row.segments = p.length := by rw [heq]
        exact ⟨le_of_eq h1, fun _ => le_of_eq h2⟩
      · rcases hle with hlt | ⟨heqd, hseg⟩
        · constructor
          · exact le_of_lt hlt
          · intro hcontra
            exact absurd hcontra.symm (by simpa using ne_of_lt hlt)
        · exact ⟨le_of_eq heqd, fun _ => hseg⟩
    · -- the via field for a selected two-segment path
      intro h2
      have hplen2 : pr.length = 2 := by rw [← hprsegs]; exact h2
      obtain ⟨r0, r1, hpr2⟩ : ∃ r0 r1, pr = [r0, r1] := by
        cases pr with
        | nil => simp at hplen2
        | cons a l =>
          cases l with
          | nil => simp at hplen2
          | cons b l2 =>
            cases l2 with
            | nil => exact ⟨a, b, rfl⟩
            | cons c l3 => simp at hplen2
      have hr0mem : r0 ∈ g.rels := by
        have := hpr.2.2.2.1
        exact this r0 (by rw [hpr2]; simp)
      obtain ⟨m, hm⟩ := findNode_of_destsResolve hres hr0mem
      refine ⟨r0, m, ?_, hm, ?_⟩
      · rw [hprrels, hpr2]; rfl
      · rw [hprvia]
        unfold pathVia
        rw [if_pos hplen2, hpr2]
        simp only [List.head?_cons, Option.some_bind]
        rw [hm, Option.map_some']
    · -- no via field for other path lengths
      intro h2
      have hplen2 : pr.length ≠ 2 := by rw [← hprsegs]; exact h2
      rw [hprvia]
      unfold pathVia
      rw [if_neg hplen2]

/-- The three-hut graph of the testable properties in the specification:
A to B (5 km), B to C (10 km) and a direct A to C edge (20 km). -/
def exampleGraph : Graph :=
  { nodes := [ { nid := 0, hut_id := 1, name := "A" },
               { nid := 1, hut_id := 2, name := "B" },
               { nid := 2, hut_id := 3, name := "C" } ],
    rels := [ { rid := 0, src := 0, dst := 1, distance_km := some 5 },
              { rid := 1, src := 1, dst := 2, distance_km := some 10 },
              { rid := 2, src := 0, dst := 2, distance_km := some 20 } ] }

/-- Start node of the example graph. -/
def exampleHutA : HutNode := { nid := 0, hut_id := 1, name := "A" }

/-- Destination node C of the example graph. -/
def exampleHutC : HutNode := { nid := 2, hut_id := 3, name := "C" }

/-- Witness for C1: in the example graph, querying from hut 1 with
`max_distance_km = 20` and `max_segments = 2`, hut C (node 2) is reached and
the claimed best-path properties hold at this concrete input. -/
theorem get_reachable_huts_best_path_witness :
    (exampleGraph.nodes.filter (fun n => n.hut_id == 1) = [exampleHutA]) ∧
    ((1 : ℚ) ≤ 20) ∧ ((2 : Nat) ≤ 5) ∧
    (findNode exampleGraph 2 = some exampleHutC) ∧
    DestsResolve exampleGraph ∧
    ((get_reachable_huts exampleGraph 1 20 2).countP
        (fun row => row.dest.nid == 2) = 1 ∧
      ∃ row ∈ get_reachable_huts exampleGraph 1 20 2,
        row.dest = exampleHutC ∧
        (∃ p, IsQualPath exampleGraph exampleHutA 20 2 p ∧ pathDestNid p = some 2 ∧
          rowOfPath exampleGraph p = some row) ∧
        (∀ p, IsQualPath exampleGraph exampleHutA 20 2 p → pathDestNid p = some 2 →
          row.total_distance_km ≤ pathDist p ∧
            (pathDist p = row.total_distance_km → row.segments ≤ p.length)) ∧
        (row.segments = 2 → ∃ r0 m, row.rels.head? = some r0 ∧
          findNode exampleGraph r0.dst = some m ∧ row.via = some m.name) ∧
        (row.segments ≠ 2 → row.via = none)) :=
  ⟨by decide, by decide, by decide, by decide, by decide,
    get_reachable_huts_best_path exampleGraph 1 20 2 exampleHutA exampleHutC 2
      (by decide) (by decide) (by decide) (by decide) (by decide)
      ⟨[ { rid := 0, src := 0, dst := 1, distance_km := some 5 },
         { rid := 1, src := 1, dst := 2, distance_km := some 10 } ],
        by decide, by decide⟩⟩

/-- C2: for every reachable-huts query, the returned list of destination
records contains at most 1000 entries (Cypher `LIMIT 1000`) and is ordered by
total distance ascending, with ties ordered by destination hut name ascending
(`ORDER BY total_distance_km ASC, name ASC`).  Verified against
`get_reachable_huts` of `src/routers/huts.py`, embedded here as
`get_reachable_huts_capped`. -/
theorem get_reachable_huts_capped_bounded_sorted (g : Graph) (startId : Int)
    (maxDist : ℚ) (maxSeg : Nat) :
    (get_reachable_huts_capped g startId maxDist maxSeg).length ≤ 1000 ∧
      (get_reachable_huts_capped g startId maxDist maxSeg).Pairwise rowLeDistName := by
  unfold get_reachable_huts_capped
  constructor
  · exact List.length_take_le _ _
  · exact List.Pairwise.sublist (List.take_sublist _ _)
      (List.sorted_insertionSort rowLeDistName _)

/-! ### Admin link creation (`create_link` of `src/routers/admin.py`) -/

/-- A FastAPI error response (HTTPException). -/
structure ApiError where
  status : Nat
  detail : String
deriving Repr, DecidableEq

/-- Request body of the admin create-link route (`CreateLinkRequest` of
`src/models.py`). -/
structure CreateLinkRequest where
  from_hut_id : Int
  to_hut_id : Int
  distance_km : ℚ
  dplus_m : ℚ
  dminus_m : ℚ
  geometry_polyline : Option String := none
  bidirectional : Bool := false
deriving Repr, DecidableEq

/-- Field constraints of `CreateLinkRequest`: distance in 0..100, nonnegative
ascent and descent, distinct endpoint huts. -/
def CreateLinkRequest.Valid (b : CreateLinkRequest) : Prop :=
  0 ≤ b.distance_km ∧ b.distance_km ≤ 100 ∧ 0 ≤ b.dplus_m ∧ 0 ≤ b.dminus_m ∧
    b.from_hut_id ≠ b.to_hut_id

instance (b : CreateLinkRequest) : Decidable b.Valid := by
  unfold CreateLinkRequest.Valid; infer_instance

/-- A LINK edge keyed by the `hut_id` of its endpoints (the form used by the
link-creation Cypher, which matches huts by `hut_id`). -/
structure LinkEdge where
  src : Int
  dst : Int
  distance_km : ℚ
  dplus_m : ℚ
  dminus_m : ℚ
  geometry_polyline : Option String := none
deriving Repr, DecidableEq

/-- The part of the graph state relevant to link creation: the set of existing
hut ids and the LINK edges between them. -/
structure LinkState where
  hutIds : List Int
  edges : List LinkEdge
deriving Repr, DecidableEq

/-- Cypher `MATCH (a:Hut {hut_id: $fromId}) MATCH (b:Hut {hut_id: $toId})
MERGE (a)-[r:LINK]->(b) SET r...`: fails (no row) when either hut is absent;
otherwise updates every LINK edge of the ordered pair if one exists, else
appends a fresh edge. -/
def mergeLink (st : LinkState) (a b : Int) (d dp dm : ℚ) (geo : Option String) :
    Option LinkState :=
  if a ∈ st.hutIds ∧ b ∈ st.hutIds then
    if st.edges.any (fun e => e.src == a && e.dst == b) then
      some { st with edges := st.edges.map (fun e =>
        if e.src == a && e.dst == b then
          { e with
            distance_km := d
            dplus_m := dp
            dminus_m := dm
            geometry_polyline := geo }
        else e) }
    else
      some { st with edges := st.edges ++
        [{ src := a
           dst := b
           distance_km := d
           dplus_m := dp
           dminus_m := dm
           geometry_polyline := geo }] }
  else none

/-- Response of the create-link route. -/
structure CreateLinkResponse where
  created_forward : Bool
  created_backward : Bool
  from_hut_id : Int
  to_hut_id : Int
deriving Repr, DecidableEq

/-- The create-link route of `src/routers/admin.py`: upserts the forward edge
(404 when an endpoint hut is missing) and, when `bidirectional`, upserts the
reverse edge with ascent and descent swapped (its Cypher sets
`r.dplus_m = $dminus_m` and `r.dminus_m = $dplus_m`). -/
def create_link (st : LinkState) (body : CreateLinkRequest) :
    Except ApiError (LinkState × CreateLinkResponse) :=
  match mergeLink st body.from_hut_id body.to_hut_id body.distance_km
      body.dplus_m body.dminus_m body.geometry_polyline with
  | none => .error { status := 404, detail := "Une ou plusieurs cabanes introuvables" }
  | some st1 =>
    if body.bidirectional then
      match mergeLink st1 body.to_hut_id body.from_hut_id body.distance_km
          body.dminus_m body.dplus_m body.geometry_polyline with
      | some st2 => .ok (st2,
          { created_forward := true, created_backward := true,
            from_hut_id := body.from_hut_id, to_hut_id := body.to_hut_id })
      | none => .ok (st1,
          { created_forward := true, created_backward := false,
            from_hut_id := body.from_hut_id, to_hut_id := body.to_hut_id })
    else .ok (st1,
      { created_forward := true, created_backward := false,
        from_hut_id := body.from_hut_id, to_hut_id := body.to_hut_id })

/-- Sequential application of create-link requests. -/
def create_link_seq : LinkState → List CreateLinkRequest → Option LinkState
  | st, [] => some st
  | st, b :: bs =>
    match create_link st b with
    | .ok (st1, _) => create_link_seq st1 bs
    | .error _ => none

/-- Number of LINK edges of an ordered endpoint pair. -/
def countPair (st : LinkState) (f t : Int) : Nat :=
  st.edges.countP (fun e => e.src == f && e.dst == t)

theorem mergeLink_isSome {st : LinkState} {a b : Int}
    (ha : a ∈ st.hutIds) (hb : b ∈ st.hutIds) (d dp dm : ℚ) (geo : Option String) :
    ∃ st', mergeLink st a b d dp dm geo = some st' := by
  unfold mergeLink
  rw [if_pos ⟨ha, hb⟩]
  by_cases h : st.edges.any (fun e => e.src == a && e.dst == b) = true
  · rw [if_pos h]; exact ⟨_, rfl⟩
  · rw [if_neg h]; exact ⟨_, rfl⟩

theorem mergeLink_hutIds {st st' : LinkState} {a b : Int} {d dp dm : ℚ}
    {geo : Option String} (h : mergeLink st a b d dp dm geo = some st') :
    st'.hutIds = st.hutIds := by
  unfold mergeLink at h
  split at h
  · split at h
    · rw [← Option.some_inj.mp h]
    · rw [← Option.some_inj.mp h]
  · exact absurd h (by simp)

theorem mergeLink_pair {st st' : LinkState} {a b : Int} {d dp dm : ℚ}
    {geo : Option String} (h : mergeLink st a b d dp dm geo = some st') :
    (∃ e ∈ st'.edges, e.src = a ∧ e.dst = b) ∧
      ∀ e ∈ st'.edges, e.src = a → e.dst = b →
        e.distance_km = d ∧ e.dplus_m = dp ∧ e.dminus_m = dm := by
  unfold mergeLink at h
  split at h
  · split at h
    · rename_i hany
      rw [← Option.some_inj.mp h]
      constructor
      · obtain ⟨e0, he0, hpred⟩ := List.any_eq_true.mp hany
        simp only [Bool.and_eq_true, beq_iff_eq] at hpred
        refine ⟨_, List.mem_map_of_mem _ he0, ?_⟩
        rw [if_pos (by simp [hpred.1, hpred.2])]
        exact ⟨hpred.1, hpred.2⟩
      · intro e he hsrc hdst
        obtain ⟨x, hx, hxe⟩ := List.mem_map.mp he
        by_cases hpred : (x.src == a && x.dst == b) = true
        · rw [if_pos hpred] at hxe
          rw [← hxe]
          exact ⟨rfl, rfl, rfl⟩
        · rw [if_neg hpred] at hxe
          subst hxe
          exact absurd (by simp [hsrc, hdst]) hpred
    · rename_i hany
      rw [← Option.some_inj.mp h]
      have hnone := List.any_eq_false.mp (Bool.not_eq_true _ ▸ hany)
      constructor
      · exact ⟨_, List.mem_append_right _ (List.mem_singleton_self _), rfl, rfl⟩
      · intro e he hsrc hdst
        rcases List.mem_append.mp he with hmem | hmem
        · exact absurd (by simp [hsrc, hdst]) (hnone e hmem)
        · rw [List.mem_singleton.mp hmem]
          exact ⟨rfl, rfl, rfl⟩
  · exact absurd h (by simp)

theorem mergeLink_countPair {st st' : LinkState} {a b : Int} {d dp dm : ℚ}
    {geo : Option String} (h : mergeLink st a b d dp dm geo = some st')
    (hle : countPair st a b ≤ 1) : countPair st' a b = 1 := by
  unfold mergeLink at h
  split at h
  · split at h
    · rename_i hany
      rw [← Option.some_inj.mp h]
      unfold countPair at *
      have hcongr : (st.edges.map (fun e =>
          if e.src == a && e.dst == b then
            { e with
              distance_km := d
              dplus_m := dp
              dminus_m := dm
              geometry_polyline := geo }
          else e)).countP (fun e => e.src == a && e.dst == b) =
          st.edges.countP (fun e => e.src == a && e.dst == b) := by
        rw [List.countP_map]
        refine List.countP_congr ?_
        intro x hx
        by_cases hpred : (x.src == a && x.dst == b) = true
        · simp only [Function.comp_apply, if_pos hpred]
        · simp only [Function.comp_apply, if_neg hpred]
      rw [hcongr]
      have hpos : 0 < st.edges.countP (fun e => e.src == a && e.dst == b) := by
        obtain ⟨e0, he0, hpred⟩ := List.any_eq_true.mp hany
        exact List.countP_pos.mpr ⟨e0, he0, hpred⟩
      omega
    · rename_i hany
      rw [← Option.some_inj.mp h]
      unfold countPair
      have hnone := List.any_eq_false.mp (Bool.not_eq_true _ ▸ hany)
      rw [List.countP_append]
      have hz : st.edges.countP (fun e => e.src == a && e.dst == b) = 0 :=
        List.countP_eq_zero.mpr hnone
      simp [hz]
  · exact absurd h (by simp)

theorem mergeLink_otherPair {st st' : LinkState} {a b f t : Int} {d dp dm : ℚ}
    {geo : Option String} (h : mergeLink st a b d dp dm geo = some st')
    (hne : ¬(f = a ∧ t = b)) :
    countPair st' f t = countPair st f t ∧
      ∀ e ∈ st'.edges, e.src = f → e.dst = t → e ∈ st.edges := by
  unfold mergeLink at h
  split at h
  · split at h
    · obtain rfl := Option.some_inj.mp h
      constructor
      · unfold countPair
        rw [List.countP_map]
        refine List.countP_congr fun x hx => ?_
        by_cases hpred : (x.src == a && x.dst == b) = true
        · rw [Function.comp_apply, if_pos hpred]
        · rw [Function.comp_apply, if_neg hpred]
      · intro e he hsrc hdst
        obtain ⟨x, hx, hxe⟩ := List.mem_map.mp he
        by_cases hpred : (x.src == a && x.dst == b) = true
        · rw [if_pos hpred] at hxe
          exfalso
          apply hne
          simp only [Bool.and_eq_true, beq_iff_eq] at hpred
          constructor
          · rw [← hsrc, ← hxe]; exact hpred.1
          · rw [← hdst, ← hxe]; exact hpred.2
        · rw [if_neg hpred] at hxe
          rw [← hxe]; exact hx
    · obtain rfl := Option.some_inj.mp h
      have hpred : ((a == f) && (b == t)) = false := by
        by_contra hc
        rw [Bool.not_eq_false] at hc
        simp only [Bool.and_eq_true, beq_iff_eq] at hc
        exact hne ⟨hc.1.symm, hc.2.symm⟩
      constructor
      · unfold countPair
        rw [List.countP_append]
        simp [List.countP_cons, hpred]
      · intro e he hsrc hdst
        rcases List.mem_append.mp he with hmem | hmem
        · exact hmem
        · rw [List.mem_singleton.mp hmem] at hsrc hdst
          exact absurd ⟨hsrc.symm, hdst.symm⟩ hne
  · exact absurd h (by simp)

/-- C3: for every create-link request with `bidirectional = true` whose two
endpoint huts exist, the operation also upserts a reverse LINK edge from
`to_hut_id` to `from_hut_id` whose ascent (`dplus_m`) equals the request
descent (`dminus_m`) and whose descent equals the request ascent, while the
reverse edge distance equals the request distance.  Verified against
`create_link` of `src/routers/admin.py`, whose reverse Cypher sets
`r.dplus_m = $dminus_m` and `r.dminus_m = $dplus_m`. -/
theorem create_link_bidirectional_reverse (st : LinkState) (body : CreateLinkRequest)
    (hfrom : body.from_hut_id ∈ st.hutIds) (hto : body.to_hut_id ∈ st.hutIds)
    (hbidir : body.bidirectional = true) :
    ∃ st2 resp, create_link st body = .ok (st2, resp) ∧
      resp.created_backward = true ∧
      (∃ e ∈ st2.edges, e.src = body.to_hut_id ∧ e.dst = body.from_hut_id) ∧
      ∀ e ∈ st2.edges, e.src = body.to_hut_id → e.dst = body.from_hut_id →
        e.dplus_m = body.dminus_m ∧ e.dminus_m = body.dplus_m ∧
          e.distance_km = body.distance_km := by
  obtain ⟨st1, h1⟩ := mergeLink_isSome hfrom hto body.distance_km body.dplus_m
    body.dminus_m body.geometry_polyline
  have hh1 := mergeLink_hutIds h1
  obtain ⟨st2, h2⟩ := mergeLink_isSome (hh1 ▸ hto) (hh1 ▸ hfrom) body.distance_km
    body.dminus_m body.dplus_m body.geometry_polyline
  have hcall : create_link st body = .ok (st2,
      { created_forward := true, created_backward := true,
        from_hut_id := body.from_hut_id, to_hut_id := body.to_hut_id }) := by
    unfold create_link
    rw [h1]
    simp [hbidir, h2]
  obtain ⟨hex, hval⟩ := mergeLink_pair h2
  refine ⟨st2, _, hcall, rfl, hex, ?_⟩
  intro e he hsrc hdst
  obtain ⟨hd, hp, hm⟩ := hval e he hsrc hdst
  exact ⟨hp, hm, hd⟩

/-- A successful create-link call: both endpoint huts exist, so the forward
edge is upserted; afterwards the ordered pair holds exactly one edge carrying
the request values, the hut set is unchanged, and every other ordered pair
keeps its edge count. -/
theorem create_link_ok (st : LinkState) (body : CreateLinkRequest)
    (hfrom : body.from_hut_id ∈ st.hutIds) (hto : body.to_hut_id ∈ st.hutIds)
    (hne : body.from_hut_id ≠ body.to_hut_id)
    (hle : countPair st body.from_hut_id body.to_hut_id ≤ 1) :
    ∃ stout resp, create_link st body = .ok (stout, resp) ∧
      stout.hutIds = st.hutIds ∧
      countPair stout body.from_hut_id body.to_hut_id = 1 ∧
      ∀ e ∈ stout.edges, e.src = body.from_hut_id → e.dst = body.to_hut_id →
        e.distance_km = body.distance_km ∧ e.dplus_m = body.dplus_m ∧
          e.dminus_m = body.dminus_m := by
  obtain ⟨st1, h1⟩ := mergeLink_isSome hfrom hto body.distance_km body.dplus_m
    body.dminus_m body.geometry_polyline
  have hh1 := mergeLink_hutIds h1
  have hcount1 := mergeLink_countPair h1 hle
  have hval1 := (mergeLink_pair h1).2
  by_cases hbidir : body.bidirectional = true
  · obtain ⟨st2, h2⟩ := mergeLink_isSome (hh1 ▸ hto) (hh1 ▸ hfrom) body.distance_km
      body.dminus_m body.dplus_m body.geometry_polyline
    have hne2 : ¬(body.from_hut_id = body.to_hut_id ∧
        body.to_hut_id = body.from_hut_id) := by
      intro hc; exact hne hc.1
    have hother := mergeLink_otherPair h2 hne2
    refine ⟨st2,
      { created_forward := true
        created_backward := true
        from_hut_id := body.from_hut_id
        to_hut_id := body.to_hut_id }, ?_,
      (mergeLink_hutIds h2).trans hh1, hother.1.trans hcount1, ?_⟩
    · unfold create_link
      rw [h1]
      simp [hbidir, h2]
    · intro e he hsrc hdst
      exact hval1 e (hother.2 e he hsrc hdst) hsrc hdst
  · refine ⟨st1,
      { created_forward := true
        created_backward := false
        from_hut_id := body.from_hut_id
        to_hut_id := body.to_hut_id }, ?_, hh1, hcount1, hval1⟩
    unfold create_link
    rw [h1]
    simp [hbidir]

/-- C4: for every ordered pair of existing, distinct huts, after any nonempty
sequence of create-link requests targeting that pair (starting from a state
holding at most one edge for the pair), exactly one LINK edge exists from
`from` to `to`, and its `distance_km`, `dplus_m` and `dminus_m` equal the
values of the most recent request: edge creation is a merge/upsert keyed on
the endpoint pair and never appends a second edge. -/
theorem create_link_seq_upsert (st : LinkState) (f t : Int)
    (reqs : List CreateLinkRequest) (rlast : CreateLinkRequest)
    (hf : f ∈ st.hutIds) (ht : t ∈ st.hutIds) (hne : f ≠ t)
    (hinit : countPair st f t ≤ 1)
    (hall : ∀ r ∈ reqs, r.from_hut_id = f ∧ r.to_hut_id = t)
    (hlast : reqs.getLast? = some rlast) :
    ∃ st', create_link_seq st reqs = some st' ∧ countPair st' f t = 1 ∧
      ∀ e ∈ st'.edges, e.src = f → e.dst = t →
        e.distance_km = rlast.distance_km ∧ e.dplus_m = rlast.dplus_m ∧
          e.dminus_m = rlast.dminus_m := by
  induction reqs generalizing st with
  | nil => simp at hlast
  | cons r rs ih =>
    obtain ⟨hrf, hrt⟩ := hall r (List.mem_cons_self _ _)
    obtain ⟨stout, resp, hok, hhut, hcount, hvals⟩ :=
      create_link_ok st r (hrf ▸ hf) (hrt ▸ ht) (by rw [hrf, hrt]; exact hne)
        (by rw [hrf, hrt]; exact hinit)
    rw [hrf, hrt] at hcount hvals
    cases rs with
    | nil =>
      have hr : r = rlast := by simpa using hlast
      refine ⟨stout, ?_, hcount, by rw [← hr]; exact hvals⟩
      unfold create_link_seq
      rw [hok]
      rfl
    | cons r2 rs2 =>
      obtain ⟨st', hseq, hcount2, hvals2⟩ := ih stout (hhut ▸ hf) (hhut ▸ ht)
        (le_of_eq hcount)
        (fun x hx => hall x (List.mem_cons_of_mem _ hx))
        (by rw [List.getLast?_cons_cons] at hlast; exact hlast)
      refine ⟨st', ?_, hcount2, hvals2⟩
      unfold create_link_seq
      rw [hok]
      exact hseq

/-- A small concrete state for link-creation witnesses: two huts, no edges. -/
def witnessLinkState : LinkState := { hutIds := [1, 2], edges := [] }

/-- A concrete bidirectional create-link request. -/
def witnessLinkReq : CreateLinkRequest :=
  { from_hut_id := 1
    to_hut_id := 2
    distance_km := 7
    dplus_m := 100
    dminus_m := 30
    bidirectional := true }

/-- A second concrete create-link request for the same pair. -/
def witnessLinkReq2 : CreateLinkRequest :=
  { from_hut_id := 1
    to_hut_id := 2
    distance_km := 9
    dplus_m := 10
    dminus_m := 20
    bidirectional := false }

/-- Witness for C3 at a concrete state and request. -/
theorem create_link_bidirectional_reverse_witness :
    ((1 : Int) ∈ witnessLinkState.hutIds) ∧ ((2 : Int) ∈ witnessLinkState.hutIds) ∧
    witnessLinkReq.bidirectional = true ∧
    (∃ st2 resp, create_link witnessLinkState witnessLinkReq = .ok (st2, resp) ∧
      resp.created_backward = true ∧
      (∃ e ∈ st2.edges, e.src = witnessLinkReq.to_hut_id ∧
        e.dst = witnessLinkReq.from_hut_id) ∧
      ∀ e ∈ st2.edges, e.src = witnessLinkReq.to_hut_id →
        e.dst = witnessLinkReq.from_hut_id →
        e.dplus_m = witnessLinkReq.dminus_m ∧ e.dminus_m = witnessLinkReq.dplus_m ∧
          e.distance_km = witnessLinkReq.distance_km) :=
  ⟨by decide, by decide, by decide,
    create_link_bidirectional_reverse witnessLinkState witnessLinkReq
      (by decide) (by decide) (by decide)⟩

/-- Witness for C4: two successive requests on the same pair leave exactly one
edge holding the values of the second request. -/
theorem create_link_seq_upsert_witness :
    ((1 : Int) ∈ witnessLinkState.hutIds) ∧ ((2 : Int) ∈ witnessLinkState.hutIds) ∧
    (1 : Int) ≠ 2 ∧ countPair witnessLinkState 1 2 ≤ 1 ∧
    (∀ r ∈ [witnessLinkReq, witnessLinkReq2], r.from_hut_id = 1 ∧ r.to_hut_id = 2) ∧
    ([witnessLinkReq, witnessLinkReq2].getLast? = some witnessLinkReq2) ∧
    (∃ st', create_link_seq witnessLinkState [witnessLinkReq, witnessLinkReq2] = some st' ∧
      countPair st' 1 2 = 1 ∧
      ∀ e ∈ st'.edges, e.src = 1 → e.dst = 2 →
        e.distance_km = witnessLinkReq2.distance_km ∧
          e.dplus_m = witnessLinkReq2.dplus_m ∧
          e.dminus_m = witnessLinkReq2.dminus_m) :=
  ⟨by decide, by decide, by decide, by decide, by decide, by decide,
    create_link_seq_upsert witnessLinkState 1 2 [witnessLinkReq, witnessLinkReq2]
      witnessLinkReq2 (by decide) (by decide) (by decide) (by decide)
      (by decide) (by decide)⟩

/-! ### Coordinate validation and hut import
(`validate_coordinates` of `src/security.py`, `import_hut` of
`src/routers/admin.py`) -/

/-- The coordinate validator of `src/security.py`: rejects a latitude outside
[-90, 90] or a longitude outside [-180, 180] with a 400 client error. -/
def validate_coordinates (lat lon : ℚ) : Except ApiError (ℚ × ℚ) :=
  if ¬(-90 ≤ lat ∧ lat ≤ 90) then
    .error { status := 400, detail := "Latitude invalide (doit être entre -90 et 90)" }
  else if ¬(-180 ≤ lon ∧ lon ≤ 180) then
    .error { status := 400, detail := "Longitude invalide (doit être entre -180 et 180)" }
  else .ok (lat, lon)

/-- Lookup in an OSM tag map (`tags.get(key)`). -/
def tagsGet (tags : List (String × String)) (k : String) : Option String :=
  (tags.find? (fun kv => kv.1 == k)).map (fun kv => kv.2)

/-- Request body of the hut-import route (`ImportHutRequest` of `src/models.py`). -/
structure ImportHutRequest where
  name : String
  latitude : ℚ
  longitude : ℚ
  country_code : Option String := none
  osm_id : Option Int := none
  raw_tags : List (String × String) := []
deriving Repr, DecidableEq

/-- A created Hut node (its raw tag map is kept structurally in `tags_json`). -/
structure HutRecord where
  hut_id : Int
  name : String
  latitude : ℚ
  longitude : ℚ
  country_code : Option String := none
  osm_id : Option Int := none
  tourism : Option String := none
  amenity : Option String := none
  shelter_type : Option String := none
  operator : Option String := none
  tags_json : Option (List (String × String)) := none
deriving Repr, DecidableEq

/-- The store of Hut nodes visible to the import route. -/
structure HutStore where
  huts : List HutRecord
deriving Repr, DecidableEq

/-- The hut-import route of `src/routers/admin.py` (`import_hut`): validates
the coordinates, computes `hut_id = coalesce(max(hut_id), 0) + 1`, extracts
`tourism`, `amenity`, `shelter_type`, `operator` from the raw tags, and
creates the Hut node.  A validation failure returns the client error and
leaves the store unchanged. -/
def import_hut (st : HutStore) (body : ImportHutRequest) :
    Except ApiError (HutStore × HutRecord) :=
  match validate_coordinates body.latitude body.longitude with
  | .error e => .error e
  | .ok _ =>
    let maxId := (st.huts.map (fun h => h.hut_id)).foldl max 0
    let newId := maxId + 1
    let tags := body.raw_tags
    let hut : HutRecord :=
      { hut_id := newId
        name := body.name
        latitude := body.latitude
        longitude := body.longitude
        country_code := body.country_code
        osm_id := body.osm_id
        tourism := tagsGet tags "tourism"
        amenity := tagsGet tags "amenity"
        shelter_type := tagsGet tags "shelter_type"
        operator := tagsGet tags "operator"
        tags_json := if tags.isEmpty then none else some tags }
    .ok ({ huts := st.huts ++ [hut] }, hut)

/-- C5: for every hut-import request whose latitude is outside [-90, 90] or
whose longitude is outside [-180, 180], the import operation fails with a 400
client validation error and creates no Hut node: the result is an error, so no
new store is produced and the graph is left unchanged. -/
theorem import_hut_invalid_coordinates (st : HutStore) (body : ImportHutRequest)
    (hbad : ¬(-90 ≤ body.latitude ∧ body.latitude ≤ 90) ∨
      ¬(-180 ≤ body.longitude ∧ body.longitude ≤ 180)) :
    ∃ e : ApiError, import_hut st body = .error e ∧ e.status = 400 := by
  unfold import_hut validate_coordinates
  rcases hbad with h | h
  · rw [if_pos h]
    exact ⟨_, rfl, rfl⟩
  · by_cases h1 : ¬(-90 ≤ body.latitude ∧ body.latitude ≤ 90)
    · rw [if_pos h1]
      exact ⟨_, rfl, rfl⟩
    · rw [if_neg h1, if_pos h]
      exact ⟨_, rfl, rfl⟩

/-- Witness for C5: importing a candidate with latitude 95 fails validation. -/
theorem import_hut_invalid_coordinates_witness :
    (¬(-90 ≤ (95 : ℚ) ∧ (95 : ℚ) ≤ 90) ∨ ¬(-180 ≤ (18 : ℚ) ∧ (18 : ℚ) ≤ 180)) ∧
    ∃ e : ApiError,
      import_hut { huts := [] }
        { name := "Aktse", latitude := 95, longitude := 18 } = .error e ∧
      e.status = 400 :=
  ⟨by decide,
    import_hut_invalid_coordinates { huts := [] }
      { name := "Aktse", latitude := 95, longitude := 18 } (by decide)⟩

/-! ### Itinerary persistence (`src/routers/itineraries.py`) -/

/-- The 31-symbol code alphabet (`CODE_CHARS`). -/
def CODE_CHARS : String := "23456789ABCDEFGHJKMNPQRSTUVWXYZ"

/-- The code length (`CODE_LENGTH`). -/
def CODE_LENGTH : Nat := 6

/-- Characters removed by Python `str.strip()` with no argument (whitespace). -/
def isStripChar (c : Char) : Bool :=
  c == ' ' || c == '\t' || c == '\n' || c == '\r'

/-- Python `code.upper().strip()`: uppercase every character, then drop
leading and trailing whitespace. -/
def normalizeCode (s : String) : String :=
  ⟨(((s.data.map Char.toUpper).dropWhile isStripChar).reverse.dropWhile
      isStripChar).reverse⟩

/-- A waypoint hut id as received on the wire (`Union[str, int]`). -/
inductive HutIdValue where
  | intId (i : Int)
  | strId (v : String)
deriving Repr, DecidableEq

/-- The pydantic validator `convert_hut_id_to_str`: `str(v)`. -/
def HutIdValue.normalize : HutIdValue → String
  | .intId i => toString i
  | .strId v => v

/-- A validated saved waypoint (`SavedHut`), with the hut id already a string. -/
structure SavedHut where
  hut_id : String
  name : String
  latitude : ℚ
  longitude : ℚ
  country_code : Option String := none
  altitude : Option ℚ := none
  is_rest_day : Bool := false
deriving Repr, DecidableEq

/-- A saved waypoint as received on the wire, before hut-id normalization. -/
structure SavedHutInput where
  hut_id : HutIdValue
  name : String
  latitude : ℚ
  longitude : ℚ
  country_code : Option String := none
  altitude : Option ℚ := none
  is_rest_day : Bool := false
deriving Repr, DecidableEq

/-- Pydantic validation of a wire waypoint: normalize the hut id to a string. -/
def SavedHutInput.validate (h : SavedHutInput) : SavedHut :=
  { hut_id := h.hut_id.normalize
    name := h.name
    latitude := h.latitude
    longitude := h.longitude
    country_code := h.country_code
    altitude := h.altitude
    is_rest_day := h.is_rest_day }

/-- A saved segment (`SavedSegment`). -/
structure SavedSegment where
  distance_km : ℚ
  elevation_gain : ℚ
  elevation_loss : ℚ
  geometry_polyline : Option String := none
deriving Repr, DecidableEq

/-- A saved step (`SavedStep`). -/
structure SavedStep where
  from_hut_id : Option String := none
  to_hut_id : Option String := none
  distance_km : ℚ
  dplus_m : ℚ
  dminus_m : ℚ
  geometry_polyline : Option String := none
deriving Repr, DecidableEq

/-- The save request (`SaveItineraryRequest`), with wire-form waypoints. -/
structure SaveItineraryRequest where
  huts : List SavedHutInput
  segments : List SavedSegment
  steps : Option (List SavedStep) := none
  start_date : String
  max_distance : Option ℚ := some 35
  max_segments : Option Nat := some 2
  expedition_name : Option String := none
deriving Repr, DecidableEq

/-- The save response (`SaveItineraryResponse`). -/
structure SaveItineraryResponse where
  code : String
  created_at : String
  huts_count : Nat
  total_distance : ℚ
deriving Repr, DecidableEq

/-- A persisted Itinerary node.  The waypoint, segment and step lists are
stored on the node as serialized JSON text and deserialized on read; since
the serialization round-trips these records, they are kept structurally. -/
structure ItineraryNode where
  code : String
  created_at : String
  start_date : String
  max_distance : Option ℚ
  max_segments : Option Nat
  expedition_name : Option String
  huts : List SavedHut
  segments : List SavedSegment
  steps : List SavedStep
  total_distance : ℚ
  total_gain : ℚ
  total_loss : ℚ
  huts_count : Nat
deriving Repr, DecidableEq

/-- The store of Itinerary nodes. -/
abbrev ItinStore : Type := List ItineraryNode

/-- Cypher `MATCH (i:Itinerary {code: $code})` as an existence check. -/
def codeExists (st : ItinStore) (c : String) : Bool :=
  (st : List ItineraryNode).any (fun i => i.code == c)

/-- The load response (`LoadItineraryResponse`). -/
structure LoadItineraryResponse where
  code : String
  created_at : String
  start_date : String
  max_distance : Option ℚ
  max_segments : Option Nat
  expedition_name : Option String
  huts : List SavedHut
  segments : List SavedSegment
  steps : Option (List SavedStep)
deriving Repr, DecidableEq

/-- The save route (`save_itinerary`): draws candidate codes from the random
generator `gen` (checking the first ten candidates against the store, failing
with a 500 error when all collide), computes the totals, validates the
waypoints, and creates one Itinerary node. -/
def save_itinerary (st : ItinStore) (gen : Nat → String) (now : String)
    (req : SaveItineraryRequest) :
    Except ApiError (ItinStore × SaveItineraryResponse) :=
  match (List.range 10).find? (fun i => !(codeExists st (gen i))) with
  | none => .error { status := 500, detail := "Impossible de générer un code unique" }
  | some i =>
    let code := gen i
    let total_distance := (req.segments.map (fun s => s.distance_km)).sum
    let total_gain := (req.segments.map (fun s => s.elevation_gain)).sum
    let total_loss := (req.segments.map (fun s => s.elevation_loss)).sum
    let node : ItineraryNode :=
      { code := code
        created_at := now
        start_date := req.start_date
        max_distance := req.max_distance
        max_segments := req.max_segments
        expedition_name := req.expedition_name
        huts := req.huts.map SavedHutInput.validate
        segments := req.segments
        steps := req.steps.getD []
        total_distance := total_distance
        total_gain := total_gain
        total_loss := total_loss
        huts_count := req.huts.length }
    .ok ((st : List ItineraryNode) ++ [node],
      { code := code
        created_at := now
        huts_count := req.huts.length
        total_distance := total_distance })

/-- The load route (`load_itinerary`): normalizes the code, rejects codes that
are not exactly six characters with a 400 error, looks the node up (404 when
absent) and deserializes the stored lists. -/
def load_itinerary (st : ItinStore) (code : String) :
    Except ApiError LoadItineraryResponse :=
  if (normalizeCode code).length ≠ CODE_LENGTH then
    .error { status := 400, detail := "Le code doit contenir 6 caractères" }
  else
    match (st : List ItineraryNode).find? (fun i => i.code == normalizeCode code) with
    | none => .error { status := 404, detail := "Itinéraire non trouvé" }
    | some it => .ok
        { code := normalizeCode code
          created_at := it.created_at
          start_date := it.start_date
          max_distance := it.max_distance
          max_segments := it.max_segments
          expedition_name := it.expedition_name
          huts := it.huts
          segments := it.segments
          steps := if it.steps.isEmpty then none else some it.steps }

/-- Response of the exists route; `exists_flag` stands for the JSON key
`exists`. -/
structure ExistsResponse where
  exists_flag : Bool
  created_at : Option String := none
  huts_count : Option Nat := none
deriving Repr, DecidableEq

/-- The exists route (`check_itinerary_exists`): normalizes the code and
returns an existence flag with the creation timestamp and hut count when the
itinerary is present, with no length validation of the code. -/
def check_itinerary_exists (st : ItinStore) (code : String) : ExistsResponse :=
  match (st : List ItineraryNode).find? (fun i => i.code == normalizeCode code) with
  | none => { exists_flag := false }
  | some it =>
      { exists_flag := true
        created_at := some it.created_at
        huts_count := some it.huts_count }

theorem find?_append_none {α : Type} {l1 l2 : List α} {p : α → Bool}
    (h : l1.find? p = none) : (l1 ++ l2).find? p = l2.find? p := by
  induction l1 with
  | nil => simp
  | cons a as ih =>
    cases hp : p a with
    | true => rw [List.find?_cons_of_pos _ hp] at h; simp at h
    | false =>
      have hp2 : ¬p a = true := by simp [hp]
      rw [List.find?_cons_of_neg _ hp2] at h
      rw [List.cons_append, List.find?_cons_of_neg _ hp2]
      exact ih h

/-- The Itinerary node created by a save whose chosen code is the first
generator candidate. -/
def witnessNodeOf (st : ItinStore) (gen : Nat → String) (now : String)
    (req : SaveItineraryRequest) : ItineraryNode :=
  { code := gen 0
    created_at := now
    start_date := req.start_date
    max_distance := req.max_distance
    max_segments := req.max_segments
    expedition_name := req.expedition_name
    huts := req.huts.map SavedHutInput.validate
    segments := req.segments
    steps := req.steps.getD []
    total_distance := (req.segments.map (fun s => s.distance_km)).sum
    total_gain := (req.segments.map (fun s => s.elevation_gain)).sum
    total_loss := (req.segments.map (fun s => s.elevation_loss)).sum
    huts_count := req.huts.length }

/-- C6: for every save-itinerary request, loading the itinerary by the code
returned from save reproduces exactly the same waypoints (with hut
identifiers normalized to strings), the same segments and the same start
date, and the total distance - both the one reported by save and the sum over
the loaded segments - equals the sum of the request per-segment
`distance_km` values.  The code generator is an oracle whose first candidate
is a free well-formed six-character code. -/
theorem save_load_roundtrip (st : ItinStore) (gen : Nat → String) (now : String)
    (req : SaveItineraryRequest)
    (hlen : (gen 0).length = CODE_LENGTH)
    (hnorm : normalizeCode (gen 0) = gen 0)
    (hfree : codeExists st (gen 0) = false) :
    ∃ st' resp out,
      save_itinerary st gen now req = .ok (st', resp) ∧
      resp.code = gen 0 ∧
      resp.total_distance = (req.segments.map (fun s => s.distance_km)).sum ∧
      load_itinerary st' resp.code = .ok out ∧
      out.huts = req.huts.map SavedHutInput.validate ∧
      out.segments = req.segments ∧
      out.start_date = req.start_date ∧
      (out.segments.map (fun s => s.distance_km)).sum =
        (req.segments.map (fun s => s.distance_km)).sum := by
  have hfind : (List.range 10).find? (fun i => !(codeExists st (gen i))) = some 0 := by
    have hrange : List.range 10 = [0, 1, 2, 3, 4, 5, 6, 7, 8, 9] := by decide
    rw [hrange]
    exact List.find?_cons_of_pos _ (by rw [hfree]; rfl)
  have hsave : save_itinerary st gen now req = .ok
      ((st : List ItineraryNode) ++ [witnessNodeOf st gen now req],
        { code := gen 0
          created_at := now
          huts_count := req.huts.length
          total_distance := (req.segments.map (fun s => s.distance_km)).sum }) := by
    unfold save_itinerary
    rw [hfind]
    rfl
  have hload : load_itinerary
      ((st : List ItineraryNode) ++ [witnessNodeOf st gen now req]) (gen 0) = .ok
      { code := gen 0
        created_at := now
        start_date := req.start_date
        max_distance := req.max_distance
        max_segments := req.max_segments
        expedition_name := req.expedition_name
        huts := req.huts.map SavedHutInput.validate
        segments := req.segments
        steps := if (req.steps.getD []).isEmpty then none
          else some (req.steps.getD []) } := by
    unfold load_itinerary
    rw [hnorm]
    rw [if_neg (by rw [hlen]; exact fun hc => hc rfl)]
    have hnone : (st : List ItineraryNode).find? (fun i => i.code == gen 0) = none := by
      rw [List.find?_eq_none]
      intro it hit
      exact (List.any_eq_false.mp hfree) it hit
    rw [find?_append_none hnone]
    rw [List.find?_cons_of_pos _ (by exact beq_self_eq_true _)]
    rfl
  exact ⟨_, _, _, hsave, rfl, rfl, hload, rfl, rfl, rfl, rfl⟩

/-- A concrete save request with three waypoints (one with an integer hut id)
and two segments, taken from the itinerary round-trip testable property. -/
def witnessSaveReq : SaveItineraryRequest :=
  { huts := [
      { hut_id := .intId 7, name := "A", latitude := 67, longitude := 18 },
      { hut_id := .strId "B8", name := "B", latitude := 68, longitude := 19 },
      { hut_id := .intId 9, name := "C", latitude := 69, longitude := 20 } ]
    segments := [
      { distance_km := 5, elevation_gain := 100, elevation_loss := 50 },
      { distance_km := 10, elevation_gain := 200, elevation_loss := 150 } ]
    start_date := "2025-03-01" }

/-- Witness for C6 at a concrete store, generator and request. -/
theorem save_load_roundtrip_witness :
    ((fun _ : Nat => "ABC234") 0).length = CODE_LENGTH ∧
    normalizeCode ((fun _ : Nat => "ABC234") 0) = (fun _ : Nat => "ABC234") 0 ∧
    codeExists [] ((fun _ : Nat => "ABC234") 0) = false ∧
    (∃ st' resp out,
      save_itinerary [] (fun _ => "ABC234") "2024-01-01T00:00:00" witnessSaveReq
        = .ok (st', resp) ∧
      resp.code = (fun _ : Nat => "ABC234") 0 ∧
      resp.total_distance =
        (witnessSaveReq.segments.map (fun s => s.distance_km)).sum ∧
      load_itinerary st' resp.code = .ok out ∧
      out.huts = witnessSaveReq.huts.map SavedHutInput.validate ∧
      out.segments = witnessSaveReq.segments ∧
      out.start_date = witnessSaveReq.start_date ∧
      (out.segments.map (fun s => s.distance_km)).sum =
        (witnessSaveReq.segments.map (fun s => s.distance_km)).sum) :=
  ⟨by decide, by decide, by decide,
    save_load_roundtrip [] (fun _ => "ABC234") "2024-01-01T00:00:00" witnessSaveReq
      (by decide) (by decide) (by decide)⟩

/-- C10: the itinerary exists operation normalizes the code (uppercase,
trimmed) and returns an existence result for codes of any length, never a
client validation error - its existence flag is true exactly when a stored
itinerary carries the normalized code - while the load operation rejects any
code whose normalized form is not exactly six characters with a 400 error. -/
theorem check_exists_no_length_validation (st : ItinStore) (code : String) :
    ((check_itinerary_exists st code).exists_flag = true ↔
      ∃ it ∈ (st : List ItineraryNode), it.code = normalizeCode code) ∧
    ((normalizeCode code).length ≠ CODE_LENGTH →
      ∃ e, load_itinerary st code = .error e ∧ e.status = 400) := by
  constructor
  · unfold check_itinerary_exists
    cases hf : (st : List ItineraryNode).find? (fun i => i.code == normalizeCode code) with
    | none =>
      constructor
      · intro hc; simp at hc
      · rintro ⟨it, hmem, hcode⟩
        exact absurd (by simp [hcode]) (List.find?_eq_none.mp hf it hmem)
    | some it =>
      constructor
      · intro _
        exact ⟨it, List.mem_of_find?_eq_some hf, by simpa using List.find?_some hf⟩
      · intro _; rfl
  · intro hlen
    unfold load_itinerary
    rw [if_pos hlen]
    exact ⟨_, rfl, rfl⟩

/-- Witness for C10: a two-character lowercase code is normalized and answered
with a non-existence result by the exists operation, while the load operation
rejects it with a 400 error. -/
theorem check_exists_no_length_validation_witness :
    ((check_itinerary_exists [] "ab").exists_flag = true ↔
      ∃ it ∈ ([] : ItinStore), it.code = normalizeCode "ab") ∧
    ((normalizeCode "ab").length ≠ CODE_LENGTH ∧
      ∃ e, load_itinerary [] "ab" = .error e ∧ e.status = 400) :=
  ⟨(check_exists_no_length_validation [] "ab").1,
    by decide,
    (check_exists_no_length_validation [] "ab").2 (by decide)⟩

/-! ### Admin POI search (`overpass_search` of `src/routers/admin.py`) -/

/-- An element of an Overpass JSON response. -/
structure OverpassElement where
  etype : Option String := none
  oid : Option Int := none
  lat : Option ℚ := none
  lon : Option ℚ := none
  center_lat : Option ℚ := none
  center_lon : Option ℚ := none
  tags : List (String × String) := []
deriving Repr, DecidableEq

/-- A parsed Overpass response body. -/
structure OverpassData where
  elements : List OverpassElement
deriving Repr, DecidableEq

/-- Outcome of the single HTTP call to the Overpass service: a network error
(`requests.RequestException`), a non-success HTTP status
(`resp.raise_for_status()`), an unparsable body (`resp.json()` raising
`ValueError`), or a parsed body. -/
inductive OverpassUpstream where
  | netError
  | httpError (status : Nat)
  | badJson
  | ok (data : OverpassData)
deriving Repr, DecidableEq

/-- A candidate returned by the POI search (`OverpassHutCandidate` of
`src/models.py`). -/
structure OverpassHutCandidate where
  osm_id : Int
  name : String
  latitude : ℚ
  longitude : ℚ
  country_code : Option String := none
  tourism : Option String := none
  amenity : Option String := none
  raw_tags : List (String × String) := []
deriving Repr, DecidableEq

/-- Python truthiness of an optional string (`not osm_type`). -/
def truthyStr : Option String → Bool
  | none => false
  | some v => !(v == "")

/-- Python truthiness of an optional integer (`not osm_id`). -/
def truthyInt : Option Int → Bool
  | none => false
  | some i => !(i == 0)

/-- The parse loop of `overpass_search`: skip elements without a truthy type
and id, deduplicate on the `(type, id)` key, resolve coordinates from the
element or its `center`, drop unnamed elements, and stop at `limit`. -/
def overpassParse (limit : Nat) :
    List OverpassElement → List (String × Int) → List OverpassHutCandidate →
      List OverpassHutCandidate
  | [], _, acc => acc
  | el :: rest, seen, acc =>
    if truthyStr el.etype && truthyInt el.oid then
      match el.etype, el.oid with
      | some ty, some oid =>
        if (ty, oid) ∈ seen then overpassParse limit rest seen acc
        else
          let seen2 := (ty, oid) :: seen
          let coords : Option (ℚ × ℚ) :=
            match el.lat, el.lon with
            | some la, some lo => some (la, lo)
            | _, _ =>
              match el.center_lat, el.center_lon with
              | some la, some lo => some (la, lo)
              | _, _ => none
          match coords with
          | none => overpassParse limit rest seen2 acc
          | some (la, lo) =>
            match tagsGet el.tags "name" with
            | none => overpassParse limit rest seen2 acc
            | some nm =>
              if nm == "" then overpassParse limit rest seen2 acc
              else
                let acc2 := acc ++ [{
                  osm_id := oid
                  name := nm
                  latitude := la
                  longitude := lo
                  country_code := tagsGet el.tags "addr:country"
                  tourism := tagsGet el.tags "tourism"
                  amenity := tagsGet el.tags "amenity"
                  raw_tags := el.tags }]
                if limit ≤ acc2.length then acc2
                else overpassParse limit rest seen2 acc2
      | _, _ => overpassParse limit rest seen acc
    else overpassParse limit rest seen acc

/-- The admin POI search route (`overpass_search` of `src/routers/admin.py`):
issues one Overpass query; any network error, non-success HTTP status or
unparsable body is caught and answered with an empty candidate list; a parsed
body is run through the parse loop.  The route never produces an error
response for an upstream failure. -/
def overpass_search (resp : OverpassUpstream) (limit : Nat) :
    Except ApiError (List OverpassHutCandidate) :=
  match resp with
  | .netError => .ok []
  | .httpError _ => .ok []
  | .badJson => .ok []
  | .ok data => .ok (overpassParse limit data.elements [] [])

/-- C7: for every admin POI search request, any upstream failure - network
error, non-success HTTP status, or unparsable response body - results in a
successful response carrying an empty candidate list; the operation never
returns an error response, for any upstream outcome. -/
theorem overpass_search_absorbs_upstream_failures (resp : OverpassUpstream)
    (limit : Nat) :
    (∃ l, overpass_search resp limit = .ok l) ∧
    ((resp = .netError ∨ (∃ c, resp = .httpError c) ∨ resp = .badJson) →
      overpass_search resp limit = .ok []) := by
  cases resp with
  | netError => exact ⟨⟨[], rfl⟩, fun _ => rfl⟩
  | httpError c => exact ⟨⟨[], rfl⟩, fun _ => rfl⟩
  | badJson => exact ⟨⟨[], rfl⟩, fun _ => rfl⟩
  | ok data =>
    refine ⟨⟨_, rfl⟩, ?_⟩
    rintro (h | ⟨c, h⟩ | h) <;> simp at h

/-- Witness for C7: a service timeout yields an empty candidate list. -/
theorem overpass_search_absorbs_upstream_failures_witness :
    (∃ l, overpass_search .netError 20 = .ok l) ∧
    ((OverpassUpstream.netError = .netError ∨
      (∃ c, OverpassUpstream.netError = .httpError c) ∨
      OverpassUpstream.netError = .badJson) ∧
      overpass_search .netError 20 = .ok []) :=
  ⟨(overpass_search_absorbs_upstream_failures .netError 20).1,
    Or.inl rfl,
    (overpass_search_absorbs_upstream_failures .netError 20).2 (Or.inl rfl)⟩

/-! ### Batch link enrichment (`src/enrich_edges_with_ors.py`) -/

/-- A row of `fetch_links_to_enrich`. -/
structure FetchRec where
  from_id : Int
  to_id : Int
  from_name : String
  to_name : String
  from_lon : ℚ
  from_lat : ℚ
  to_lon : ℚ
  to_lat : ℚ
deriving Repr, DecidableEq

/-- The batch fetch of the enrichment job: LINK edges with no geometry, not
marked `ors_skip`, whose endpoint huts both have coordinates; `LIMIT 20`. -/
def fetch_links_to_enrich (g : Graph) (limit : Nat) : List FetchRec :=
  (g.rels.filterMap (fun l =>
    match findNode g l.src, findNode g l.dst with
    | some a, some b =>
      match a.latitude, a.longitude, b.latitude, b.longitude with
      | some alat, some alon, some blat, some blon =>
        if l.geometry_polyline = none ∧ l.ors_skip.getD false = false then
          some { from_id := a.hut_id
                 to_id := b.hut_id
                 from_name := a.name
                 to_name := b.name
                 from_lon := alon
                 from_lat := alat
                 to_lon := blon
                 to_lat := blat }
        else none
      | _, _, _, _ => none
    | _, _ => none)).take limit

/-- Does a LINK edge run from a hut with id `f` to a hut with id `t`? -/
def relPairB (g : Graph) (f t : Int) (l : LinkRel) : Bool :=
  match findNode g l.src, findNode g l.dst with
  | some a, some b => a.hut_id == f && b.hut_id == t
  | _, _ => false

/-- `delete_self_link`: delete every LINK edge between nodes that both carry
the given `hut_id`, returning the deleted count. -/
def delete_self_link (g : Graph) (h : Int) : Graph × Nat :=
  ({ g with rels := g.rels.filter (fun l => !(relPairB g h h l)) },
    g.rels.countP (relPairB g h h))

/-- `mark_link_as_failed`: set `ors_skip = true` and a reason truncated to
500 characters on every LINK edge of the hut-id pair. -/
def mark_link_as_failed (g : Graph) (f t : Int) (reason : String) : Graph :=
  { g with rels := g.rels.map (fun l =>
    if relPairB g f t l then
      { l with
        ors_skip := some true
        ors_reason := some ⟨reason.data.take 500⟩ }
    else l) }

/-- `update_link_in_neo4j`: set distance, ascent, descent and geometry on
every LINK edge of the hut-id pair. -/
def update_link_in_neo4j (g : Graph) (f t : Int) (d dp dm : ℚ) (geo : String) :
    Graph :=
  { g with rels := g.rels.map (fun l =>
    if relPairB g f t l then
      { l with
        distance_km := some d
        dplus_m := some dp
        dminus_m := some dm
        geometry_polyline := some geo }
    else l) }

/-- Outcome of one `call_ors` invocation: a rate-limit response (HTTP 429,
raised as a script-halting error), a per-pair failure (network error,
non-success status, unparsable body, missing fields or missing geometry), or
a normalized result. -/
inductive OrsOutcome where
  | rateLimited
  | fail
  | ok (distance_km dplus_m dminus_m : ℚ) (geometry : String)
deriving Repr, DecidableEq

/-- The external routing service as an oracle over the call coordinates
(`from_lon from_lat to_lon to_lat`). -/
def OrsOracle : Type := ℚ → ℚ → ℚ → ℚ → OrsOutcome

/-- Observable events of an enrichment run. -/
inductive EnrichEv where
  | selfDelete (hutId : Int) (deleted : Nat)
  | orsCall (fromId toId : Int) (outcome : OrsOutcome)
  | markSkip (fromId toId : Int)
  | updateLink (fromId toId : Int)
deriving Repr, DecidableEq

/-- Processing of one fetched batch, in order: a self-link record deletes all
edges of that hut id to itself and makes no routing call; otherwise the
routing service is called - a rate-limit outcome stops the whole run
immediately (the returned flag), a failure marks the edge skipped, a success
updates it. -/
def processRecs (o : OrsOracle) : Graph → List FetchRec → List EnrichEv × Graph × Bool
  | g, [] => ([], g, false)
  | g, fr :: rest =>
    if fr.from_id = fr.to_id then
      (.selfDelete fr.from_id (delete_self_link g fr.from_id).2 ::
          (processRecs o (delete_self_link g fr.from_id).1 rest).1,
        (processRecs o (delete_self_link g fr.from_id).1 rest).2)
    else
      match o fr.from_lon fr.from_lat fr.to_lon fr.to_lat with
      | .rateLimited => ([.orsCall fr.from_id fr.to_id .rateLimited], g, true)
      | .fail =>
        (.orsCall fr.from_id fr.to_id .fail :: .markSkip fr.from_id fr.to_id ::
            (processRecs o (mark_link_as_failed g fr.from_id fr.to_id
              "ORS error (voir logs du script)") rest).1,
          (processRecs o (mark_link_as_failed g fr.from_id fr.to_id
            "ORS error (voir logs du script)") rest).2)
      | .ok d dp dm geo =>
        (.orsCall fr.from_id fr.to_id (.ok d dp dm geo) ::
            .updateLink fr.from_id fr.to_id ::
            (processRecs o (update_link_in_neo4j g fr.from_id fr.to_id d dp dm geo)
              rest).1,
          (processRecs o (update_link_in_neo4j g fr.from_id fr.to_id d dp dm geo)
            rest).2)

/-- The main loop of the enrichment job: fetch a batch of 20, stop when the
fetch is empty, process the batch, abort the run on a rate-limit flag, else
continue with the next batch.  `fuel` bounds the number of batches. -/
def runJob (o : OrsOracle) : Nat → Graph → List EnrichEv × Graph
  | 0, g => ([], g)
  | fuel + 1, g =>
    if (fetch_links_to_enrich g 20).isEmpty then ([], g)
    else
      if (processRecs o g (fetch_links_to_enrich g 20)).2.2 then
        ((processRecs o g (fetch_links_to_enrich g 20)).1,
          (processRecs o g (fetch_links_to_enrich g 20)).2.1)
      else
        ((processRecs o g (fetch_links_to_enrich g 20)).1 ++
            (runJob o fuel (processRecs o g (fetch_links_to_enrich g 20)).2.1).1,
          (runJob o fuel (processRecs o g (fetch_links_to_enrich g 20)).2.1).2)

/-- Branch equation: a self-link record. -/
theorem processRecs_self {o : OrsOracle} {g : Graph} {fr : FetchRec}
    {rest : List FetchRec} (h : fr.from_id = fr.to_id) :
    processRecs o g (fr :: rest) =
      (.selfDelete fr.from_id (delete_self_link g fr.from_id).2 ::
          (processRecs o (delete_self_link g fr.from_id).1 rest).1,
        (processRecs o (delete_self_link g fr.from_id).1 rest).2) := by
  simp only [processRecs]
  rw [if_pos h]

/-- Branch equation: a rate-limited routing call aborts the batch. -/
theorem processRecs_rate {o : OrsOracle} {g : Graph} {fr : FetchRec}
    {rest : List FetchRec} (h : ¬fr.from_id = fr.to_id)
    (ho : o fr.from_lon fr.from_lat fr.to_lon fr.to_lat = .rateLimited) :
    processRecs o g (fr :: rest) =
      ([.orsCall fr.from_id fr.to_id .rateLimited], g, true) := by
  simp only [processRecs]
  rw [if_neg h, ho]

/-- Branch equation: a failed routing call marks the edge skipped. -/
theorem processRecs_fail {o : OrsOracle} {g : Graph} {fr : FetchRec}
    {rest : List FetchRec} (h : ¬fr.from_id = fr.to_id)
    (ho : o fr.from_lon fr.from_lat fr.to_lon fr.to_lat = .fail) :
    processRecs o g (fr :: rest) =
      (.orsCall fr.from_id fr.to_id .fail :: .markSkip fr.from_id fr.to_id ::
          (processRecs o (mark_link_as_failed g fr.from_id fr.to_id
            "ORS error (voir logs du script)") rest).1,
        (processRecs o (mark_link_as_failed g fr.from_id fr.to_id
          "ORS error (voir logs du script)") rest).2) := by
  simp only [processRecs]
  rw [if_neg h, ho]

/-- Branch equation: a successful routing call updates the edge. -/
theorem processRecs_success {o : OrsOracle} {g : Graph} {fr : FetchRec}
    {rest : List FetchRec} {d dp dm : ℚ} {geo : String}
    (h : ¬fr.from_id = fr.to_id)
    (ho : o fr.from_lon fr.from_lat fr.to_lon fr.to_lat = .ok d dp dm geo) :
    processRecs o g (fr :: rest) =
      (.orsCall fr.from_id fr.to_id (.ok d dp dm geo) ::
          .updateLink fr.from_id fr.to_id ::
          (processRecs o (update_link_in_neo4j g fr.from_id fr.to_id d dp dm geo)
            rest).1,
        (processRecs o (update_link_in_neo4j g fr.from_id fr.to_id d dp dm geo)
          rest).2) := by
  simp only [processRecs]
  rw [if_neg h, ho]

/-- A rate-limited routing call is always the last event of a batch trace. -/
theorem processRecs_rl_last (o : OrsOracle) :
    ∀ (recs : List FetchRec) (g : Graph) (i : Nat) (a b : Int),
      (processRecs o g recs).1[i]? = some (.orsCall a b .rateLimited) →
      i + 1 = (processRecs o g recs).1.length := by
  intro recs
  induction recs with
  | nil =>
    intro g i a b h
    simp [processRecs] at h
  | cons fr rest ih =>
    intro g i a b h
    by_cases hself : fr.from_id = fr.to_id
    · rw [processRecs_self hself] at h ⊢
      cases i with
      | zero => rw [List.getElem?_cons_zero] at h; simp at h
      | succ j =>
        rw [List.getElem?_cons_succ] at h
        have := ih _ j a b h
        simp only [List.length_cons]
        omega
    · cases ho : o fr.from_lon fr.from_lat fr.to_lon fr.to_lat with
      | rateLimited =>
        rw [processRecs_rate hself ho] at h ⊢
        cases i with
        | zero => simp
        | succ j =>
          rw [List.getElem?_cons_succ] at h
          simp at h
      | fail =>
        rw [processRecs_fail hself ho] at h ⊢
        cases i with
        | zero => rw [List.getElem?_cons_zero] at h; simp at h
        | succ j =>
          rw [List.getElem?_cons_succ] at h
          cases j with
          | zero => rw [List.getElem?_cons_zero] at h; simp at h
          | succ k =>
            rw [List.getElem?_cons_succ] at h
            have := ih _ k a b h
            simp only [List.length_cons]
            omega
      | ok d dp dm geo =>
        rw [processRecs_success hself ho] at h ⊢
        cases i with
        | zero => rw [List.getElem?_cons_zero] at h; simp at h
        | succ j =>
          rw [List.getElem?_cons_succ] at h
          cases j with
          | zero => rw [List.getElem?_cons_zero] at h; simp at h
          | succ k =>
            rw [List.getElem?_cons_succ] at h
            have := ih _ k a b h
            simp only [List.length_cons]
            omega

/-- A batch that does not abort contains no rate-limited call event. -/
theorem processRecs_no_rl (o : OrsOracle) :
    ∀ (recs : List FetchRec) (g : Graph),
      (processRecs o g recs).2.2 = false →
      ∀ a b, EnrichEv.orsCall a b .rateLimited ∉ (processRecs o g recs).1 := by
  intro recs
  induction recs with
  | nil =>
    intro g hab a b
    simp [processRecs]
  | cons fr rest ih =>
    intro g hab a b hmem
    by_cases hself : fr.from_id = fr.to_id
    · rw [processRecs_self hself] at hab hmem
      rcases List.mem_cons.mp hmem with hm | hm
      · simp at hm
      · exact ih _ hab a b hm
    · cases ho : o fr.from_lon fr.from_lat fr.to_lon fr.to_lat with
      | rateLimited =>
        rw [processRecs_rate hself ho] at hab
        simp at hab
      | fail =>
        rw [processRecs_fail hself ho] at hab hmem
        rcases List.mem_cons.mp hmem with hm | hm
        · simp at hm
        · rcases List.mem_cons.mp hm with hm2 | hm2
          · simp at hm2
          · exact ih _ hab a b hm2
      | ok d dp dm geo =>
        rw [processRecs_success hself ho] at hab hmem
        rcases List.mem_cons.mp hmem with hm | hm
        · simp at hm
        · rcases List.mem_cons.mp hm with hm2 | hm2
          · simp at hm2
          · exact ih _ hab a b hm2

/-- C8: if any routing-service call made by the batch enrichment job returns
a rate-limit response, the job terminates immediately: the rate-limited call
event is the last event of the whole run trace, so no further routing call is
issued and no further edge is processed in the current or any later batch. -/
theorem runJob_rate_limit_aborts (o : OrsOracle) (fuel : Nat) (g : Graph)
    (i : Nat) (a b : Int)
    (h : (runJob o fuel g).1[i]? = some (.orsCall a b .rateLimited)) :
    i + 1 = (runJob o fuel g).1.length := by
  induction fuel generalizing g i with
  | zero => simp [runJob] at h
  | succ fuel ih =>
    by_cases hempty : (fetch_links_to_enrich g 20).isEmpty = true
    · rw [runJob, if_pos hempty] at h
      simp at h
    · by_cases hab : (processRecs o g (fetch_links_to_enrich g 20)).2.2 = true
      · rw [runJob, if_neg hempty, if_pos hab] at h ⊢
        exact processRecs_rl_last o _ g i a b h
      · rw [runJob, if_neg hempty, if_neg hab] at h ⊢
        rw [List.getElem?_append] at h
        by_cases hi : i < (processRecs o g (fetch_links_to_enrich g 20)).1.length
        · rw [if_pos hi] at h
          exfalso
          have hmem : EnrichEv.orsCall a b .rateLimited ∈
              (processRecs o g (fetch_links_to_enrich g 20)).1 := by
            exact List.getElem?_mem h
          exact processRecs_no_rl o _ g (Bool.not_eq_true _ ▸ hab) a b hmem
        · rw [if_neg hi] at h
          have := ih _ _ h
          rw [List.length_append]
          omega

/-- A concrete enrichment graph: two huts with coordinates and one LINK edge
still to enrich. -/
def witnessEnrichGraph : Graph :=
  { nodes := [
      { nid := 0, hut_id := 1, name := "A", latitude := some 67, longitude := some 18 },
      { nid := 1, hut_id := 2, name := "B", latitude := some 68, longitude := some 19 } ],
    rels := [ { rid := 0, src := 0, dst := 1 } ] }

/-- A routing-service oracle that always answers with a rate limit. -/
def witnessOracleRL : OrsOracle := fun _ _ _ _ => .rateLimited

/-- Witness for C8: with a rate-limiting routing service, the run trace is
exactly one rate-limited call and nothing follows it. -/
theorem runJob_rate_limit_aborts_witness :
    ((runJob witnessOracleRL 3 witnessEnrichGraph).1[0]? =
      some (.orsCall 1 2 .rateLimited)) ∧
    0 + 1 = (runJob witnessOracleRL 3 witnessEnrichGraph).1.length :=
  ⟨by decide,
    runJob_rate_limit_aborts witnessOracleRL 3 witnessEnrichGraph 0 1 2 (by decide)⟩

/-- No routing call of a batch trace targets a pair with equal hut ids. -/
theorem processRecs_call_ne (o : OrsOracle) :
    ∀ (recs : List FetchRec) (g : Graph) (a b : Int) (out : OrsOutcome),
      EnrichEv.orsCall a b out ∈ (processRecs o g recs).1 → a ≠ b := by
  intro recs
  induction recs with
  | nil =>
    intro g a b out hmem
    simp [processRecs] at hmem
  | cons fr rest ih =>
    intro g a b out hmem
    by_cases hself : fr.from_id = fr.to_id
    · rw [processRecs_self hself] at hmem
      rcases List.mem_cons.mp hmem with hm | hm
      · simp at hm
      · exact ih _ a b out hm
    · cases ho : o fr.from_lon fr.from_lat fr.to_lon fr.to_lat with
      | rateLimited =>
        rw [processRecs_rate hself ho] at hmem
        rcases List.mem_cons.mp hmem with hm | hm
        · obtain ⟨h1, h2, -⟩ := by simpa using hm
          rw [h1, h2]; exact hself
        · simp at hm
      | fail =>
        rw [processRecs_fail hself ho] at hmem
        rcases List.mem_cons.mp hmem with hm | hm
        · obtain ⟨h1, h2, -⟩ := by simpa using hm
          rw [h1, h2]; exact hself
        · rcases List.mem_cons.mp hm with hm2 | hm2
          · simp at hm2
          · exact ih _ a b out hm2
      | ok d dp dm geo =>
        rw [processRecs_success hself ho] at hmem
        rcases List.mem_cons.mp hmem with hm | hm
        · obtain ⟨h1, h2, -⟩ := by simpa using hm
          rw [h1, h2]; exact hself
        · rcases List.mem_cons.mp hm with hm2 | hm2
          · simp at hm2
          · exact ih _ a b out hm2

/-- C9: whenever the enrichment job processes a fetched LINK edge whose two
endpoint huts resolve to the same `hut_id`, it handles the record by deleting
every LINK edge from that `hut_id` to itself - the state handed to the
remaining records contains no such edge - and it makes no external
routing-service call for it: no call event of the batch trace targets a pair
of equal hut ids. -/
theorem self_link_deleted_without_call (o : OrsOracle) (g : Graph)
    (fr : FetchRec) (rest : List FetchRec) (hself : fr.from_id = fr.to_id) :
    (processRecs o g (fr :: rest)).1.head? =
      some (.selfDelete fr.from_id (delete_self_link g fr.from_id).2) ∧
    (∀ l ∈ (delete_self_link g fr.from_id).1.rels,
      ¬relPairB (delete_self_link g fr.from_id).1 fr.from_id fr.from_id l = true) ∧
    (∀ a b out, EnrichEv.orsCall a b out ∈ (processRecs o g (fr :: rest)).1 →
      a ≠ b) := by
  refine ⟨?_, ?_, fun a b out hm => processRecs_call_ne o _ g a b out hm⟩
  · rw [processRecs_self hself]
    rfl
  · intro l hl hc
    have h2 := (List.mem_filter.mp hl).2
    rw [Bool.not_eq_true'] at h2
    have hc2 : relPairB g fr.from_id fr.from_id l = true := hc
    rw [h2] at hc2
    exact Bool.false_ne_true hc2

/-- A concrete graph with two duplicate hut records sharing `hut_id` 1 and a
degenerate LINK edge between them. -/
def witnessSelfGraph : Graph :=
  { nodes := [
      { nid := 0, hut_id := 1, name := "A", latitude := some 67, longitude := some 18 },
      { nid := 1, hut_id := 1, name := "A bis", latitude := some 67, longitude := some 18 } ],
    rels := [ { rid := 0, src := 0, dst := 1 } ] }

/-- The fetched record of the degenerate edge of `witnessSelfGraph`. -/
def witnessSelfRec : FetchRec :=
  { from_id := 1
    to_id := 1
    from_name := "A"
    to_name := "A bis"
    from_lon := 18
    from_lat := 67
    to_lon := 18
    to_lat := 67 }

/-- Witness for C9 at a concrete graph, record and oracle. -/
theorem self_link_deleted_without_call_witness :
    witnessSelfRec.from_id = witnessSelfRec.to_id ∧
    ((processRecs (fun _ _ _ _ => .fail) witnessSelfGraph [witnessSelfRec]).1.head? =
      some (.selfDelete witnessSelfRec.from_id
        (delete_self_link witnessSelfGraph witnessSelfRec.from_id).2) ∧
    (∀ l ∈ (delete_self_link witnessSelfGraph witnessSelfRec.from_id).1.rels,
      ¬relPairB (delete_self_link witnessSelfGraph witnessSelfRec.from_id).1
        witnessSelfRec.from_id witnessSelfRec.from_id l = true) ∧
    (∀ a b out,
      EnrichEv.orsCall a b out ∈
        (processRecs (fun _ _ _ _ => .fail) witnessSelfGraph [witnessSelfRec]).1 →
      a ≠ b)) :=
  ⟨by decide,
    self_link_deleted_without_call (fun _ _ _ _ => .fail) witnessSelfGraph
      witnessSelfRec [] (by decide)⟩

end Utpatur
